import Mathlib

/-!
Verification development for the TNE2 numerics kernel
(`SU2_CFD/src/numerics_direct_tne2.cpp`).

All machine doubles (`su2double`) are modelled as real numbers; C library
calls `sqrt`, `exp`, `pow`, `log10` become `Real.sqrt`, `Real.exp`,
`Real.rpow`, `Real.logb 10`.  State vectors are total functions `ℕ → ℝ`
read through the fixed index layout of the primitive/conserved buffers.
Functions supplied by external collaborators (`CalcEve`, `CalcdPdU`,
`CalcHs`) and the eigenvector kernel (`GetPMatrix`, `GetPMatrix_inv`,
`GetInviscidProjFlux`, which live outside the sources at hand) are taken
as explicit parameters or modelled from the spec, as marked.
-/

namespace TNE2

open Finset

/-! ## Primitive-vector index layout (spec §3)

Layout: [rhos (nSp), T, Tve, u (nD), P, rho, h, a, rhoCvtr, rhoCvve],
so `nPrimVar = nSp + nD + 8`; conserved layout [rhos, momentum, rhoE, rhoEve],
`nVar = nSp + nD + 2`. -/

def RHOS_INDEX : ℕ := 0

def T_INDEX (nSp : ℕ) : ℕ := nSp

def TVE_INDEX (nSp : ℕ) : ℕ := nSp + 1

def VEL_INDEX (nSp : ℕ) : ℕ := nSp + 2

def P_INDEX (nSp nD : ℕ) : ℕ := nSp + nD + 2

def RHO_INDEX (nSp nD : ℕ) : ℕ := nSp + nD + 3

def H_INDEX (nSp nD : ℕ) : ℕ := nSp + nD + 4

def A_INDEX (nSp nD : ℕ) : ℕ := nSp + nD + 5

def RHOCVTR_INDEX (nSp nD : ℕ) : ℕ := nSp + nD + 6

def RHOCVVE_INDEX (nSp nD : ℕ) : ℕ := nSp + nD + 7

/-- Number of conserved variables, `nVar = nSpecies + nDim + 2`. -/
def nVarOf (nSp nD : ℕ) : ℕ := nSp + nD + 2

/-! ## Geometry helpers shared by every scheme -/

/-- `Area = sqrt (sum Normal[d]^2)`, the face area (norm of the normal). -/
noncomputable def faceArea (nD : ℕ) (N : ℕ → ℝ) : ℝ :=
  Real.sqrt (∑ d ∈ range nD, N d * N d)

/-- `UnitNormal[d] = Normal[d]/Area`. -/
noncomputable def unitNormal (nD : ℕ) (N : ℕ → ℝ) : ℕ → ℝ :=
  fun d => N d / faceArea nD N

/-- Velocity of a primitive state projected on a (not necessarily unit) normal. -/
def projVel (nSp nD : ℕ) (V n : ℕ → ℝ) : ℝ :=
  ∑ d ∈ range nD, V (VEL_INDEX nSp + d) * n d

/-- Componentwise negation of a vector (used to flip the face normal). -/
def negVec (v : ℕ → ℝ) : ℕ → ℝ := fun d => -(v d)

/-- Modelled from the spec: `CNumerics::GetInviscidProjFlux` is declared in
`numerics_structure.hpp` but defined outside the sources at hand.  Per spec
§4.1/§4.2/§8 it is the exact analytic inviscid flux of a single state dotted
with the (area-scaled) normal: species mass fluxes `rho_s u·N`, momentum
`rho u_d (u·N) + P N_d`, total enthalpy flux `rho h (u·N)`, and
vibrational-electronic flux `rhoEve (u·N)`. -/
def inviscidProjFlux (nSp nD : ℕ) (U V N : ℕ → ℝ) : ℕ → ℝ :=
  fun i =>
    if i < nSp then V i * projVel nSp nD V N
    else if i < nSp + nD then
      V (RHO_INDEX nSp nD) * V (VEL_INDEX nSp + (i - nSp)) * projVel nSp nD V N
        + V (P_INDEX nSp nD) * N (i - nSp)
    else if i = nSp + nD then
      V (RHO_INDEX nSp nD) * V (H_INDEX nSp nD) * projVel nSp nD V N
    else if i = nSp + nD + 1 then U (nSp + nD + 1) * projVel nSp nD V N
    else 0

/-! ## Roe scheme: eigenvalues and Harten–Hyman entropy correction
(`CUpwRoe_TNE2::ComputeResidual`, lines 158–189) -/

/-- Raw eigenvalues of the projected flux Jacobian at a state with projected
velocity `v` and sound speed `a` (lines 159–167): species and shear modes and
the vibrational mode carry `v`, the two acoustic modes `v ± a`. -/
def eigenRaw (nSp nD : ℕ) (v a : ℝ) : ℕ → ℝ :=
  fun k =>
    if k = nSp + nD - 1 then v + a
    else if k = nSp + nD then v - a
    else v

/-- One entry of the Harten–Hyman (1983) entropy correction (lines 182–186):
eigenvalues smaller in magnitude than `eps` are widened by the quadratic
smoothing formula, the rest are replaced by their absolute value. -/
noncomputable def entropyFix (lam eps : ℝ) : ℝ :=
  if |lam| < eps then (lam * lam + eps * eps) / (2 * eps) else |lam|

/-- The `Epsilon` array exactly as the code computes it (lines 170–181).
The species-mode and vibrational-mode assignments read `Lambda[iDim]` with the
stale loop value `iDim = nDim - 1` left over from the shear-eigenvalue loop;
the shear entries read `Lambda[iDim]` with that loop's own index. -/
def roeEpsilonStale (nSp nD : ℕ) (lam : ℕ → ℝ) (pvi pvj ai aj : ℝ) : ℕ → ℝ :=
  fun k =>
    if k < nSp then 4 * max 0 (max (lam (nD - 1) - pvi) (pvj - lam (nD - 1)))
    else if k < nSp + nD - 1 then
      4 * max 0 (max (lam (k - nSp) - pvi) (pvj - lam (k - nSp)))
    else if k = nSp + nD - 1 then
      4 * max 0 (max (lam (nSp + nD - 1) - (pvi + ai)) ((pvj + aj) - lam (nSp + nD - 1)))
    else if k = nSp + nD then
      4 * max 0 (max (lam (nSp + nD) - (pvi - ai)) ((pvj - aj) - lam (nSp + nD)))
    else if k = nSp + nD + 1 then
      4 * max 0 (max (lam (nD - 1) - pvi) (pvj - lam (nD - 1)))
    else 0

/-- The `Epsilon` array with the per-mode index the entropy-fix loop intends:
each non-acoustic entry reads its own eigenvalue. -/
def roeEpsilonIntended (nSp nD : ℕ) (lam : ℕ → ℝ) (pvi pvj ai aj : ℝ) : ℕ → ℝ :=
  fun k =>
    if k < nSp then 4 * max 0 (max (lam k - pvi) (pvj - lam k))
    else if k < nSp + nD - 1 then
      4 * max 0 (max (lam k - pvi) (pvj - lam k))
    else if k = nSp + nD - 1 then
      4 * max 0 (max (lam (nSp + nD - 1) - (pvi + ai)) ((pvj + aj) - lam (nSp + nD - 1)))
    else if k = nSp + nD then
      4 * max 0 (max (lam (nSp + nD) - (pvi - ai)) ((pvj - aj) - lam (nSp + nD)))
    else if k = nSp + nD + 1 then
      4 * max 0 (max (lam (nSp + nD + 1) - pvi) (pvj - lam (nSp + nD + 1)))
    else 0

/-- `Lambda` after the entropy correction and the subsequent absolute-value
pass (lines 182–189), with the code's (stale-index) `Epsilon`. -/
noncomputable def roeLambdaFixed (nSp nD : ℕ) (pv a pvi pvj ai aj : ℝ) : ℕ → ℝ :=
  fun k =>
    |entropyFix (eigenRaw nSp nD pv a k)
      (roeEpsilonStale nSp nD (eigenRaw nSp nD pv a) pvi pvj ai aj k)|

/-- `Lambda` after the entropy correction with the intended per-mode `Epsilon`. -/
noncomputable def roeLambdaFixedIntended (nSp nD : ℕ) (pv a pvi pvj ai aj : ℝ) : ℕ → ℝ :=
  fun k =>
    |entropyFix (eigenRaw nSp nD pv a k)
      (roeEpsilonIntended nSp nD (eigenRaw nSp nD pv a) pvi pvj ai aj k)|

/-- Shape of the eigenvector-matrix kernel `GetPMatrix`/`GetPMatrix_inv`:
from a conserved state, a primitive state, a pressure-derivative vector and a
unit normal it produces a matrix.  The kernel itself is defined outside the
sources at hand, so the theorems quantify over it. -/
def MatKernel : Type :=
  (ℕ → ℝ) → (ℕ → ℝ) → (ℕ → ℝ) → (ℕ → ℝ) → ℕ → ℕ → ℝ

/-- `P · diag c · P⁻¹` contracted at entry `(i,j)` exactly as the triple loops
in the source contract it. -/
def pencil (nVar : ℕ) (P Pinv : ℕ → ℕ → ℝ) (c : ℕ → ℝ) (i j : ℕ) : ℝ :=
  ∑ k ∈ range nVar, P i k * c k * Pinv k j

/-- The Roe dissipation term `sum_j 0.5 (P |Lambda| P⁻¹)_{ij} (U_j - U_i) Area`
(lines 198–218). -/
noncomputable def roeDissipation (nSp nD : ℕ) (P Pinv : ℕ → ℕ → ℝ) (lam : ℕ → ℝ)
    (U_i U_j N : ℕ → ℝ) : ℕ → ℝ :=
  fun i =>
    ∑ j ∈ range (nVarOf nSp nD),
      0.5 * pencil (nVarOf nSp nD) P Pinv lam i j * (U_j j - U_i j) * faceArea nD N

/-- `CUpwRoe_TNE2::ComputeResidual` (lines 104–222): the residual returned in
`val_residual`.  `PM`/`PMI` stand for the external `GetPMatrix`/`GetPMatrix_inv`
kernel; `calcEve`/`calcdPdU` for the mixture collaborator `CalcEve`/`CalcdPdU`. -/
noncomputable def roeComputeResidual (nSp nD : ℕ) (PM PMI : MatKernel)
    (calcEve : ℝ → ℕ → ℝ) (calcdPdU : (ℕ → ℝ) → (ℕ → ℝ) → ℕ → ℝ)
    (U_i U_j V_i V_j N : ℕ → ℝ) : ℕ → ℝ :=
  let n := unitNormal nD N
  let Rw := Real.sqrt |V_j (RHO_INDEX nSp nD) / V_i (RHO_INDEX nSp nD)|
  let RoeU : ℕ → ℝ := fun i => (Rw * U_j i + U_i i) / (Rw + 1)
  let RoeV : ℕ → ℝ := fun i => (Rw * V_j i + V_i i) / (Rw + 1)
  let RoeEve : ℕ → ℝ := fun s => calcEve (RoeV (TVE_INDEX nSp)) s
  let RoedPdU : ℕ → ℝ := calcdPdU RoeV RoeEve
  let pv := projVel nSp nD RoeV n
  let pvi := projVel nSp nD V_i n
  let pvj := projVel nSp nD V_j n
  let RoeA := Real.sqrt ((1 + RoedPdU (nSp + nD)) * RoeV (P_INDEX nSp nD) / RoeV (RHO_INDEX nSp nD))
  let lam := roeLambdaFixed nSp nD pv RoeA pvi pvj (V_i (A_INDEX nSp nD)) (V_j (A_INDEX nSp nD))
  fun i =>
    0.5 * (inviscidProjFlux nSp nD U_i V_i N i + inviscidProjFlux nSp nD U_j V_j N i)
      - roeDissipation nSp nD (PM RoeU RoeV RoedPdU n) (PMI RoeU RoeV RoedPdU n) lam U_i U_j N i

/-! ## MSW flux-vector-splitting scheme
(`CUpwMSW_TNE2::ComputeResidual`, lines 309–462) -/

/-- The MSW pressure jump `dp = |P_j - P_i| / min(P_j, P_i)` (line 369). -/
noncomputable def mswDP (P_i P_j : ℝ) : ℝ := |P_j - P_i| / min P_j P_i

/-- The MSW pressure-based state weighting `w = 0.5/((alpha·dp)² + 1)`
(line 370; the exponent is the C call `pow(alpha*dp, 2.0)`). -/
noncomputable def mswW (alpha dp : ℝ) : ℝ :=
  0.5 * (1 / ((alpha * dp) ^ (2 : ℝ) + 1))

/-- The complete MSW weight computed from the two node pressures with the
scheme constant `alpha = 5` (lines 321, 369–370). -/
noncomputable def mswWeight (nSp nD : ℕ) (V_i V_j : ℕ → ℝ) : ℝ :=
  mswW 5 (mswDP (V_i (P_INDEX nSp nD)) (V_j (P_INDEX nSp nD)))

/-- A weighted star state `(1-w)·X_i + w·X_j` (lines 374–381). -/
def mswStar (w : ℝ) (X_i X_j : ℕ → ℝ) : ℕ → ℝ :=
  fun l => (1 - w) * X_i l + w * X_j l

/-- Positive Steger–Warming half-eigenvalues `0.5(λ + sqrt(λ² + ε²))`
(lines 392–405) at star projected velocity `v` and star sound speed `a`. -/
noncomputable def mswLamPlus (nSp nD : ℕ) (v a eps : ℝ) : ℕ → ℝ :=
  fun k =>
    if k = nSp + nD - 1 then 0.5 * ((v + a) + Real.sqrt ((v + a) * (v + a) + eps * eps))
    else if k = nSp + nD then 0.5 * ((v - a) + Real.sqrt ((v - a) * (v - a) + eps * eps))
    else 0.5 * (v + Real.sqrt (v * v + eps * eps))

/-- Negative Steger–Warming half-eigenvalues `0.5(λ - sqrt(λ² + ε²))`
(lines 425–438). -/
noncomputable def mswLamMinus (nSp nD : ℕ) (v a eps : ℝ) : ℕ → ℝ :=
  fun k =>
    if k = nSp + nD - 1 then 0.5 * ((v + a) - Real.sqrt ((v + a) * (v + a) + eps * eps))
    else if k = nSp + nD then 0.5 * ((v - a) - Real.sqrt ((v - a) * (v - a) + eps * eps))
    else 0.5 * (v - Real.sqrt (v * v + eps * eps))

/-- Exchange of the two acoustic coefficient slots `nSp+nD-1` and `nSp+nD`.
Under a normal flip the eigenbasis of the projected Jacobian keeps the
repeated-eigenvalue eigenspaces and exchanges the two acoustic eigenvectors,
so kernel pencils at `-n` equal pencils at `n` with these slots swapped. -/
def swapAc (nSp nD : ℕ) (c : ℕ → ℝ) : ℕ → ℝ :=
  fun k =>
    if k = nSp + nD - 1 then c (nSp + nD)
    else if k = nSp + nD then c (nSp + nD - 1)
    else c k

/-- `CUpwMSW_TNE2::ComputeResidual`: the returned flux.  The scheme parameters
are `alpha = 5`, `epsilon = 0` (lines 321–322).  `PM`/`PMI` stand for the
external `GetPMatrix`/`GetPMatrix_inv`; note the source passes the *node*
pressure derivatives `dPdU_i`/`dPdU_j` to them (lines 408–409, 441–442), not
the star values `dPdUst` it computed on lines 389–390 (which therefore do not
influence the residual and are not parameters here). -/
noncomputable def mswComputeResidual (nSp nD : ℕ) (PM PMI : MatKernel)
    (U_i U_j V_i V_j dPdU_i dPdU_j N : ℕ → ℝ) : ℕ → ℝ :=
  let nVar := nVarOf nSp nD
  let eps : ℝ := 0
  let Area := faceArea nD N
  let n := unitNormal nD N
  let PVi := projVel nSp nD V_i n
  let PVj := projVel nSp nD V_j n
  let w := mswWeight nSp nD V_i V_j
  let Ust_i : ℕ → ℝ := mswStar w U_i U_j
  let Ust_j : ℕ → ℝ := mswStar w U_j U_i
  let Vst_i : ℕ → ℝ := mswStar w V_i V_j
  let Vst_j : ℕ → ℝ := mswStar w V_j V_i
  let PVst_i := (1 - w) * PVi + w * PVj
  let PVst_j := (1 - w) * PVj + w * PVi
  let lamP := mswLamPlus nSp nD PVst_i (Vst_i (A_INDEX nSp nD)) eps
  let lamM := mswLamMinus nSp nD PVst_j (Vst_j (A_INDEX nSp nD)) eps
  fun i =>
    (∑ j ∈ range nVar,
      pencil nVar (PM Ust_i Vst_i dPdU_i n) (PMI Ust_i Vst_i dPdU_i n) lamP i j * U_i j * Area)
    + (∑ j ∈ range nVar,
      pencil nVar (PM Ust_j Vst_j dPdU_j n) (PMI Ust_j Vst_j dPdU_j n) lamM i j * U_j j * Area)

/-- The MSW residual as the spec's words for claim comparison describe it:
identical to `mswComputeResidual` except that the eigenvector kernels receive
the pressure-derivative vector evaluated at the star state,
`dPdUst = CalcdPdU(Vst, Evest)`, instead of the node vector. -/
noncomputable def mswComputeResidualSpecStar (nSp nD : ℕ) (PM PMI : MatKernel)
    (calcEve : ℝ → ℕ → ℝ) (calcdPdU : (ℕ → ℝ) → (ℕ → ℝ) → ℕ → ℝ)
    (U_i U_j V_i V_j : ℕ → ℝ) (N : ℕ → ℝ) : ℕ → ℝ :=
  let nVar := nVarOf nSp nD
  let eps : ℝ := 0
  let Area := faceArea nD N
  let n := unitNormal nD N
  let PVi := projVel nSp nD V_i n
  let PVj := projVel nSp nD V_j n
  let w := mswWeight nSp nD V_i V_j
  let Ust_i : ℕ → ℝ := mswStar w U_i U_j
  let Ust_j : ℕ → ℝ := mswStar w U_j U_i
  let Vst_i : ℕ → ℝ := mswStar w V_i V_j
  let Vst_j : ℕ → ℝ := mswStar w V_j V_i
  let PVst_i := (1 - w) * PVi + w * PVj
  let PVst_j := (1 - w) * PVj + w * PVi
  let Evest_i : ℕ → ℝ := fun s => calcEve (Vst_i (TVE_INDEX nSp)) s
  let Evest_j : ℕ → ℝ := fun s => calcEve (Vst_j (TVE_INDEX nSp)) s
  let dPdUst_i := calcdPdU Vst_i Evest_i
  let dPdUst_j := calcdPdU Vst_j Evest_j
  let lamP := mswLamPlus nSp nD PVst_i (Vst_i (A_INDEX nSp nD)) eps
  let lamM := mswLamMinus nSp nD PVst_j (Vst_j (A_INDEX nSp nD)) eps
  fun i =>
    (∑ j ∈ range nVar,
      pencil nVar (PM Ust_i Vst_i dPdUst_i n) (PMI Ust_i Vst_i dPdUst_i n) lamP i j * U_i j * Area)
    + (∑ j ∈ range nVar,
      pencil nVar (PM Ust_j Vst_j dPdUst_j n) (PMI Ust_j Vst_j dPdUst_j n) lamM i j * U_j j * Area)

/-! ## AUSM family (`CUpwAUSM_TNE2`, `CUpwAUSMPLUSUP2_TNE2`, `CUpwAUSMPWplus_TNE2`) -/

/-- Van Leer Mach splitting `M⁺` with the optional quartic `beta` correction
of AUSM+-up2 (plain AUSM is `beta = 0`): lines 582–583 and 1023–1024. -/
noncomputable def mSplitPlus (beta m : ℝ) : ℝ :=
  if |m| ≤ 1 then 0.25 * (m + 1) * (m + 1) + beta * (m * m - 1) * (m * m - 1)
  else 0.5 * (m + |m|)

/-- Van Leer Mach splitting `M⁻`: lines 585–586 and 1026–1027. -/
noncomputable def mSplitMinus (beta m : ℝ) : ℝ :=
  if |m| ≤ 1 then -(0.25 * (m - 1) * (m - 1)) - beta * (m * m - 1) * (m * m - 1)
  else 0.5 * (m - |m|)

/-- Dimensionless pressure splitting `P⁺` with the optional `alpha` quintic
term of AUSM+-up2 (plain AUSM multiplies by `P` and has `alpha = 0`):
lines 590–591 and 1031–1032. -/
noncomputable def pSplitPlus (alpha m : ℝ) : ℝ :=
  if |m| ≤ 1 then 0.25 * (m + 1) * (m + 1) * (2 - m) + alpha * m * (m * m - 1) * (m * m - 1)
  else 0.5 * (m + |m|) / m

/-- Dimensionless pressure splitting `P⁻`: lines 593–594 and 1034–1035. -/
noncomputable def pSplitMinus (alpha m : ℝ) : ℝ :=
  if |m| ≤ 1 then 0.25 * (m - 1) * (m - 1) * (2 + m) - alpha * m * (m * m - 1) * (m * m - 1)
  else 0.5 * (m - |m|) / m

/-- The left/right convective vector of the AUSM schemes (lines 600–611):
`[rho_s a, rho a u_d, rho a h, rho a e_ve]`. -/
def ausmFc (nSp nD : ℕ) (V : ℕ → ℝ) (a eve : ℝ) : ℕ → ℝ :=
  fun i =>
    if i < nSp then V i * a
    else if i < nSp + nD then V (RHO_INDEX nSp nD) * a * V (VEL_INDEX nSp + (i - nSp))
    else if i = nSp + nD then V (RHO_INDEX nSp nD) * a * V (H_INDEX nSp nD)
    else if i = nSp + nD + 1 then V (RHO_INDEX nSp nD) * a * eve
    else 0

/-- The AUSM interface Mach number `mF = M⁺(mL) + M⁻(mR)` with
`mL = ProjVel_i/a_i`, `mR = ProjVel_j/a_j` (lines 577–588). -/
noncomputable def ausmMF (a_i a_j pvi pvj : ℝ) : ℝ :=
  mSplitPlus 0 (pvi / a_i) + mSplitMinus 0 (pvj / a_j)

/-- The AUSM interface pressure `pF = pLP + pRM` (lines 590–596). -/
noncomputable def ausmPF (P_i P_j a_i a_j pvi pvj : ℝ) : ℝ :=
  P_i * pSplitPlus 0 (pvi / a_i) + P_j * pSplitMinus 0 (pvj / a_j)

/-- `CUpwAUSM_TNE2::ComputeResidual` (lines 504–618): the returned flux. -/
noncomputable def ausmComputeResidual (nSp nD : ℕ) (U_i U_j V_i V_j N : ℕ → ℝ) : ℕ → ℝ :=
  let Area := faceArea nD N
  let n := unitNormal nD N
  let a_i := V_i (A_INDEX nSp nD)
  let a_j := V_j (A_INDEX nSp nD)
  let rho_i := V_i (RHO_INDEX nSp nD)
  let rho_j := V_j (RHO_INDEX nSp nD)
  let e_ve_i := U_i (nSp + nD + 1) / rho_i
  let e_ve_j := U_j (nSp + nD + 1) / rho_j
  let mF := ausmMF a_i a_j (projVel nSp nD V_i n) (projVel nSp nD V_j n)
  let pF := ausmPF (V_i (P_INDEX nSp nD)) (V_j (P_INDEX nSp nD)) a_i a_j
    (projVel nSp nD V_i n) (projVel nSp nD V_j n)
  let Phi := |mF|
  let FcL := ausmFc nSp nD V_i a_i e_ve_i
  let FcR := ausmFc nSp nD V_j a_j e_ve_j
  fun i =>
    0.5 * ((mF + Phi) * FcL i + (mF - Phi) * FcR i) * Area
      + (if nSp ≤ i ∧ i < nSp + nD then pF * n (i - nSp) * Area else 0)

/-- The AUSM+-up2 interface sound speed (lines 996–1005):
`aF = min(ChatL, ChatR)` with `Chat = Cstar²/max(Cstar, ±ProjVel)` and
`Cstar = sqrt(2 (Gamma-1)/(Gamma+1) h)`. -/
noncomputable def up2aF (Gamma h_i h_j pvi pvj : ℝ) : ℝ :=
  let CstarL := Real.sqrt (2 * (Gamma - 1) / (Gamma + 1) * h_i)
  let CstarR := Real.sqrt (2 * (Gamma - 1) / (Gamma + 1) * h_j)
  min (CstarL * CstarL / max CstarL pvi) (CstarR * CstarR / max CstarR (-pvj))

/-- `MFsq = 0.5 (mL² + mR²)` (line 1011). -/
def up2MFsq (mL mR : ℝ) : ℝ := 0.5 * (mL * mL + mR * mR)

/-- The low-Mach scaling `fa = 2 sqrt(Mrefsq) - Mrefsq`,
`Mrefsq = min(1, max(MFsq, Minf²))` (lines 1013–1015). -/
noncomputable def up2fa (Minf MFsq : ℝ) : ℝ :=
  2 * Real.sqrt (min 1 (max MFsq (Minf * Minf))) - min 1 (max MFsq (Minf * Minf))

/-- The pressure-diffusion term
`Mp = -(Kp/fa) max(1 - sigma MFsq, 0) (P_j - P_i)/(rhoF aF²)` (line 1021). -/
noncomputable def up2Mp (Kp sigma fa MFsq rhoF aF P_i P_j : ℝ) : ℝ :=
  -(Kp / fa) * max (1 - sigma * MFsq) 0 * (P_j - P_i) / (rhoF * aF * aF)

/-- The low-Mach pressure flux correction
`pFi = sqrt(0.5 (sq_veli + sq_velj)) (pLP + pRM - 1) 0.5 (rho_j + rho_i) aF`
(line 1039). -/
noncomputable def up2pFi (sq_veli sq_velj pLP pRM rho_i rho_j aF : ℝ) : ℝ :=
  Real.sqrt (0.5 * (sq_veli + sq_velj)) * (pLP + pRM - 1) * 0.5 * (rho_j + rho_i) * aF

/-- The modified pressure flux
`pF = 0.5 (P_j + P_i) + 0.5 (pLP - pRM)(P_i - P_j) + pFi` (line 1040). -/
def up2pF (P_i P_j pLP pRM pFi : ℝ) : ℝ :=
  0.5 * (P_j + P_i) + 0.5 * (pLP - pRM) * (P_i - P_j) + pFi

/-- `CUpwAUSMPLUSUP2_TNE2::ComputeResidual` (lines 918–1066): the returned
flux.  Scheme constants `Kp = 0.25`, `sigma = 1` (lines 850–851); `Minf` and
`Gamma` come from the configuration. -/
noncomputable def ausmPlusUp2ComputeResidual (nSp nD : ℕ) (Minf Gamma : ℝ)
    (U_i U_j V_i V_j N : ℕ → ℝ) : ℕ → ℝ :=
  let Kp : ℝ := 0.25
  let sigma : ℝ := 1
  let Area := faceArea nD N
  let n := unitNormal nD N
  let P_i := V_i (P_INDEX nSp nD)
  let P_j := V_j (P_INDEX nSp nD)
  let rho_i := V_i (RHO_INDEX nSp nD)
  let rho_j := V_j (RHO_INDEX nSp nD)
  let e_ve_i := U_i (nSp + nD + 1) / rho_i
  let e_ve_j := U_j (nSp + nD + 1) / rho_j
  let sq_veli := ∑ d ∈ range nD, V_i (VEL_INDEX nSp + d) * V_i (VEL_INDEX nSp + d)
  let sq_velj := ∑ d ∈ range nD, V_j (VEL_INDEX nSp + d) * V_j (VEL_INDEX nSp + d)
  let aF := up2aF Gamma (V_i (H_INDEX nSp nD)) (V_j (H_INDEX nSp nD))
    (projVel nSp nD V_i n) (projVel nSp nD V_j n)
  let mL := projVel nSp nD V_i n / aF
  let mR := projVel nSp nD V_j n / aF
  let rhoF := 0.5 * (rho_i + rho_j)
  let MFsq := up2MFsq mL mR
  let fa := up2fa Minf MFsq
  let alpha := 3 / 16 * (-4 + 5 * fa * fa)
  let beta : ℝ := 1 / 8
  let Mp := up2Mp Kp sigma fa MFsq rhoF aF P_i P_j
  let mF := mSplitPlus beta mL + mSplitMinus beta mR + Mp
  let pLP := pSplitPlus alpha mL
  let pRM := pSplitMinus alpha mR
  let pFi := up2pFi sq_veli sq_velj pLP pRM rho_i rho_j aF
  let pF := up2pF P_i P_j pLP pRM pFi
  let Phi := |mF|
  let mfP := 0.5 * (mF + Phi)
  let mfM := 0.5 * (mF - Phi)
  let FcL := ausmFc nSp nD V_i aF e_ve_i
  let FcR := ausmFc nSp nD V_j aF e_ve_j
  fun i =>
    (mfP * FcL i + mfM * FcR i) * Area
      + (if nSp ≤ i ∧ i < nSp + nD then pF * n (i - nSp) * Area else 0)

/-- `CUpwAUSMPWplus_TNE2::ComputeResidual` (lines 1448–1612): the returned
flux.  The source zeroes the velocity and pressure inputs (lines 1505–1510:
`u_i[iDim] = 0.0; // V_i[VEL_INDEX+iDim];` and `P_i = 0.0; // V_i[P_INDEX];`),
which is reproduced here; `alpha = 3/16` (line 1465). -/
noncomputable def ausmPWplusComputeResidual (nSp nD : ℕ) (Ru : ℝ) (Ms : ℕ → ℝ)
    (U_i U_j V_i V_j N : ℕ → ℝ) : ℕ → ℝ :=
  let alpha : ℝ := 3 / 16
  let Area := faceArea nD N
  let n := unitNormal nD N
  let u_i : ℕ → ℝ := fun _ => 0
  let u_j : ℕ → ℝ := fun _ => 0
  let P_i : ℝ := 0
  let P_j : ℝ := 0
  let h_i := V_i (H_INDEX nSp nD)
  let h_j := V_j (H_INDEX nSp nD)
  let rho_i := V_i (RHO_INDEX nSp nD)
  let rho_j := V_j (RHO_INDEX nSp nD)
  let rhoEve_i := U_i (nSp + nD + 1)
  let rhoEve_j := U_j (nSp + nD + 1)
  let rhoCvtr_i := V_i (RHOCVTR_INDEX nSp nD)
  let rhoCvtr_j := V_j (RHOCVTR_INDEX nSp nD)
  let rhoCvve_i := V_i (RHOCVVE_INDEX nSp nD)
  let rhoCvve_j := V_j (RHOCVVE_INDEX nSp nD)
  let rhoRi := ∑ s ∈ range nSp, V_i (RHOS_INDEX + s) * Ru / Ms s
  let rhoRj := ∑ s ∈ range nSp, V_j (RHOS_INDEX + s) * Ru / Ms s
  let PVi := ∑ d ∈ range nD, u_i d * n d
  let PVj := ∑ d ∈ range nD, u_j d * n d
  let sqVi := ∑ d ∈ range nD, (u_i d - PVi * n d) * (u_i d - PVi * n d)
  let sqVj := ∑ d ∈ range nD, (u_j d - PVj * n d) * (u_j d - PVj * n d)
  let Hnorm := 0.5 * (h_i - 0.5 * sqVi + h_j - 0.5 * sqVj)
  let gtl_i := rhoRi / (rhoCvtr_i + rhoCvve_i) + 1
  let gtl_j := rhoRj / (rhoCvtr_j + rhoCvve_j) + 1
  let gam := 0.5 * (gtl_i + gtl_j)
  let atl :=
    if |rho_i - rho_j| / (0.5 * (rho_i + rho_j)) < 1e-3 then
      Real.sqrt (2 * Hnorm * (gam - 1) / (gam + 1))
    else
      Real.sqrt (2 * Hnorm * (((gtl_i - 1) / (gtl_i * rho_i) - (gtl_j - 1) / (gtl_j * rho_j)) /
        ((gtl_j + 1) / (gtl_j * rho_i) - (gtl_i + 1) / (gtl_i * rho_j))))
  let aij :=
    if 0 ≤ 0.5 * (PVi + PVj) then atl * atl / max |PVi| atl
    else atl * atl / max |PVj| atl
  let mL := PVi / aij
  let mR := PVj / aij
  let mLP := if |mL| ≤ 1 then 0.25 * (mL + 1) * (mL + 1) else 0.5 * (mL + |mL|)
  let pLP :=
    if |mL| ≤ 1 then
      P_i * (0.25 * (mL + 1) * (mL + 1) * (2 - mL) + alpha * mL * (mL * mL - 1) * (mL * mL - 1))
    else P_i * 0.5 * (mL + |mL|) / mL
  let mRM := if |mR| ≤ 1 then -(0.25 * (mR - 1) * (mR - 1)) else 0.5 * (mR - |mR|)
  let pRM :=
    if |mR| ≤ 1 then
      P_j * (0.25 * (mR - 1) * (mR - 1) * (2 + mR) - alpha * mR * (mR * mR - 1) * (mR * mR - 1))
    else 0.5 * P_j * (mR - |mR|) / mR
  let w := 1 - min (P_i / P_j) (P_j / P_i) ^ (3 : ℝ)
  let ps := pLP + pRM
  let fL := if |mL| < 1 then P_i / ps - 1 else 0
  let fR := if |mR| < 1 then P_j / ps - 1 else 0
  let mF := mLP + mRM
  let mbLP := if 0 ≤ mF then mLP + mRM * ((1 - w) * (1 + fR) - fL) else mLP * w * (1 + fL)
  let mbRM := if 0 ≤ mF then mRM * w * (1 + fR) else mRM + mLP * ((1 - w) * (1 + fL) + fL - fR)
  let FcL : ℕ → ℝ := fun i =>
    if i < nSp then V_i (RHOS_INDEX + i)
    else if i < nSp + nD then rho_i * u_i (i - nSp)
    else if i = nSp + nD then rho_i * h_i
    else if i = nSp + nD + 1 then rhoEve_i
    else 0
  let FcR : ℕ → ℝ := fun i =>
    if i < nSp then V_j (RHOS_INDEX + i)
    else if i < nSp + nD then rho_j * u_j (i - nSp)
    else if i = nSp + nD then rho_j * h_j
    else if i = nSp + nD + 1 then rhoEve_j
    else 0
  fun i =>
    (mbLP * aij * FcL i + mbRM * aij * FcR i) * Area
      + (if nSp ≤ i ∧ i < nSp + nD then (pLP * n (i - nSp) + pRM * n (i - nSp)) * Area else 0)

/-! ## Centered Lax scheme (`CCentLax_TNE2::ComputeResidual`, lines 1906–2012) -/

/-- The conserved-variable difference used by the dissipation (lines 1958–1961);
the energy row is special-cased to the `rho h` difference. -/
def centLaxDiffU (nSp nD : ℕ) (U_i U_j V_i V_j : ℕ → ℝ) : ℕ → ℝ :=
  fun i =>
    if i = nSp + nD then
      V_i (RHO_INDEX nSp nD) * V_i (H_INDEX nSp nD)
        - V_j (RHO_INDEX nSp nD) * V_j (H_INDEX nSp nD)
    else U_i i - U_j i

/-- `Local_Lambda_i = fabs(ProjVel_i) + a_i*Area` exactly as computed on lines
1963–1971: `ProjVel_i` is the velocity dotted with the unnormalized `Normal`,
and `Area` has just been reset to `0` and square-rooted (line 1964 sets
`Area = 0`, line 1969 takes `Area = sqrt(Area)` without re-accumulating). -/
noncomputable def centLaxLocalLambda (nSp nD : ℕ) (V N : ℕ → ℝ) : ℝ :=
  |projVel nSp nD V N| + V (A_INDEX nSp nD) * Real.sqrt 0

/-- `MeanLambda = 0.5 (Local_Lambda_i + Local_Lambda_j)` (line 1972). -/
noncomputable def centLaxMeanLambda (nSp nD : ℕ) (V_i V_j N : ℕ → ℝ) : ℝ :=
  0.5 * (centLaxLocalLambda nSp nD V_i N + centLaxLocalLambda nSp nD V_j N)

/-- `CCentLax_TNE2::ComputeResidual`: the convective residual `val_resconv`
(lines 1941–1984).  `Param_p = 0.3`; `sensor_i`/`sensor_j` are the externally
set spectral radii `Lambda_i`/`Lambda_j`, `Neigh_i`/`Neigh_j` the neighbor
counts, `kappa0` the config constant `Param_Kappa_0` and `epsSmall` the global
`EPS` guard. -/
noncomputable def centLaxResConv (nSp nD : ℕ)
    (kappa0 epsSmall sensor_i sensor_j Neigh_i Neigh_j : ℝ)
    (U_i U_j V_i V_j N : ℕ → ℝ) : ℕ → ℝ :=
  let MeanU : ℕ → ℝ := fun i => 0.5 * (U_i i + U_j i)
  let MeanV : ℕ → ℝ := fun i => 0.5 * (V_i i + V_j i)
  let MeanLambda := centLaxMeanLambda nSp nD V_i V_j N
  let Phi_i := (sensor_i / (4 * MeanLambda + epsSmall)) ^ (0.3 : ℝ)
  let Phi_j := (sensor_j / (4 * MeanLambda + epsSmall)) ^ (0.3 : ℝ)
  let StretchingFactor := 4 * Phi_i * Phi_j / (Phi_i + Phi_j + epsSmall)
  let sc0 := 3 * (Neigh_i + Neigh_j) / (Neigh_i * Neigh_j)
  let Epsilon_0 := kappa0 * sc0 * (nD : ℝ) / 3
  fun i =>
    inviscidProjFlux nSp nD MeanU MeanV N i
      + Epsilon_0 * centLaxDiffU nSp nD U_i U_j V_i V_j i * StretchingFactor * MeanLambda

/-! ## Viscous average-gradient schemes
(`CAvgGrad_TNE2`, `CAvgGradCorrected_TNE2`, lines 2075–3142) -/

/-- `CAvgGrad_TNE2::GetViscousProjFlux` (lines 2163–2271), non-ionized path:
the projected viscous flux from a (transformed) primitive vector
`[Y_1..Y_nSp, T, Tve, u, ...]`, its gradient, the species vibrational
energies, the normal and the transport coefficients.  `calcHs` stands for the
mixture collaborator `CalcHs`. -/
noncomputable def getViscousProjFlux (nSp nD : ℕ) (Vp : ℕ → ℝ) (GV : ℕ → ℕ → ℝ) (eve : ℕ → ℝ)
    (N : ℕ → ℝ) (Ds : ℕ → ℝ) (mu ktr kve : ℝ) (calcHs : ℝ → ℝ → ℕ → ℝ) : ℕ → ℝ :=
  let rho := Vp (RHO_INDEX nSp nD)
  let T := Vp (T_INDEX nSp)
  let hs : ℕ → ℝ := fun s => calcHs T (eve s) s
  let div_vel := ∑ d ∈ range nD, GV (VEL_INDEX nSp + d) d
  let Vec : ℕ → ℝ := fun d => ∑ s ∈ range nSp, rho * Ds s * GV (RHOS_INDEX + s) d
  let tau : ℕ → ℕ → ℝ := fun d e =>
    mu * (GV (VEL_INDEX nSp + e) d + GV (VEL_INDEX nSp + d) e)
      - (if e = d then 2 / 3 * mu * div_vel else 0)
  let FluxSpecies : ℕ → ℕ → ℝ := fun s d =>
    rho * Ds s * GV (RHOS_INDEX + s) d - Vp (RHOS_INDEX + s) * Vec d
  let FluxT : ℕ → ℕ → ℝ := fun i d =>
    if i < nSp then FluxSpecies i d
    else if i < nSp + nD then tau d (i - nSp)
    else if i = nSp + nD then
      (∑ e ∈ range nD, tau d e * Vp (VEL_INDEX nSp + e))
        + (∑ s ∈ range nSp, FluxSpecies s d * hs s)
        + ktr * GV (T_INDEX nSp) d + kve * GV (TVE_INDEX nSp) d
    else if i = nSp + nD + 1 then
      (∑ s ∈ range nSp, FluxSpecies s d * eve s) + kve * GV (TVE_INDEX nSp) d
    else 0
  fun i => ∑ d ∈ range nD, FluxT i d * N d

/-- `CAvgGrad_TNE2::GetViscousProjFlux` with its ionization guard (lines
2243–2246): when the ionization flag is set the function prints a diagnostic
and terminates the process via `exit(1)` on the first pass of the spatial
loop, which is modelled as an `Except.error`; otherwise it completes and
returns the flux. -/
noncomputable def avgGradGetViscousProjFlux (nSp nD : ℕ) (Vp : ℕ → ℝ) (GV : ℕ → ℕ → ℝ)
    (eve : ℕ → ℝ) (N : ℕ → ℝ) (Ds : ℕ → ℝ) (mu ktr kve : ℝ)
    (calcHs : ℝ → ℝ → ℕ → ℝ) (ioniz : Bool) : Except String (ℕ → ℝ) :=
  if ioniz = true ∧ 0 < nD then
    Except.error "GetViscProjFlux -- NEED TO IMPLEMENT IONIZED FUNCTIONALITY!!!"
  else Except.ok (getViscousProjFlux nSp nD Vp GV eve N Ds mu ktr kve calcHs)

/-- `CAvgGradCorrected_TNE2::GetViscousProjFlux` (lines 2625–2733): the
corrected scheme's copy is textually identical to the plain one, including the
ionization guard on lines 2705–2708. -/
noncomputable def avgGradCorrectedGetViscousProjFlux (nSp nD : ℕ) (Vp : ℕ → ℝ) (GV : ℕ → ℕ → ℝ)
    (eve : ℕ → ℝ) (N : ℕ → ℝ) (Ds : ℕ → ℝ) (mu ktr kve : ℝ)
    (calcHs : ℝ → ℝ → ℕ → ℝ) (ioniz : Bool) : Except String (ℕ → ℝ) :=
  if ioniz = true ∧ 0 < nD then
    Except.error "GetViscProjFlux -- NEED TO IMPLEMENT IONIZED FUNCTIONALITY!!!"
  else Except.ok (getViscousProjFlux nSp nD Vp GV eve N Ds mu ktr kve calcHs)

/-- The species-to-mass-fraction transformation of the primitive vector done
by both viscous `ComputeResidual`s (lines 2104–2125): `Y_s = rho_s / rho`,
other entries copied. -/
noncomputable def primTransform (nSp nD : ℕ) (V : ℕ → ℝ) : ℕ → ℝ :=
  fun i => if i < nSp then V i / V (RHO_INDEX nSp nD) else V i

/-- The corresponding gradient transformation (lines 2108–2131):
`GY_s = (G rho_s - Y_s G rho)/rho`, other rows copied. -/
noncomputable def gradTransform (nSp nD : ℕ) (V : ℕ → ℝ) (G : ℕ → ℕ → ℝ) : ℕ → ℕ → ℝ :=
  fun i d =>
    if i < nSp then
      1 / V (RHO_INDEX nSp nD) * (G i d - V i / V (RHO_INDEX nSp nD) * G (RHO_INDEX nSp nD) d)
    else G i d

/-- `CAvgGrad_TNE2::ComputeResidual` (lines 2075–2160): the viscous residual,
built from arithmetic means of the two cells' transformed primitives,
gradients, vibrational energies and transport coefficients. -/
noncomputable def avgGradComputeResidual (nSp nD : ℕ) (V_i V_j : ℕ → ℝ) (G_i G_j : ℕ → ℕ → ℝ)
    (eve_i eve_j Ds_i Ds_j : ℕ → ℝ) (mu_i mu_j ktr_i ktr_j kve_i kve_j : ℝ)
    (N : ℕ → ℝ) (calcHs : ℝ → ℝ → ℕ → ℝ) : ℕ → ℝ :=
  let MeanPrim : ℕ → ℝ := fun i =>
    0.5 * (primTransform nSp nD V_i i + primTransform nSp nD V_j i)
  let MeanGrad : ℕ → ℕ → ℝ := fun i d =>
    0.5 * (gradTransform nSp nD V_i G_i i d + gradTransform nSp nD V_j G_j i d)
  let MeanEve : ℕ → ℝ := fun s => 0.5 * (eve_i s + eve_j s)
  let MeanDs : ℕ → ℝ := fun s => 0.5 * (Ds_i s + Ds_j s)
  getViscousProjFlux nSp nD MeanPrim MeanGrad MeanEve N MeanDs
    (0.5 * (mu_i + mu_j)) (0.5 * (ktr_i + ktr_j)) (0.5 * (kve_i + kve_j)) calcHs

/-- `CAvgGradCorrected_TNE2::ComputeResidual` (lines 3033–3142): as the plain
scheme, but the mean gradient's projection on the cell-to-cell edge is
replaced by the secant slope `(PrimVar_j - PrimVar_i)` (lines 3105–3114). -/
noncomputable def avgGradCorrectedComputeResidual (nSp nD : ℕ) (Coord_i Coord_j : ℕ → ℝ)
    (V_i V_j : ℕ → ℝ) (G_i G_j : ℕ → ℕ → ℝ)
    (eve_i eve_j Ds_i Ds_j : ℕ → ℝ) (mu_i mu_j ktr_i ktr_j kve_i kve_j : ℝ)
    (N : ℕ → ℝ) (calcHs : ℝ → ℝ → ℕ → ℝ) : ℕ → ℝ :=
  let Edge : ℕ → ℝ := fun d => Coord_j d - Coord_i d
  let dist2 := ∑ d ∈ range nD, Edge d * Edge d
  let MeanPrim : ℕ → ℝ := fun i =>
    0.5 * (primTransform nSp nD V_i i + primTransform nSp nD V_j i)
  let MeanGrad : ℕ → ℕ → ℝ := fun i d =>
    0.5 * (gradTransform nSp nD V_i G_i i d + gradTransform nSp nD V_j G_j i d)
  let ProjEdge : ℕ → ℝ := fun iVar => ∑ d ∈ range nD, MeanGrad iVar d * Edge d
  let CorrGrad : ℕ → ℕ → ℝ := fun iVar d =>
    MeanGrad iVar d
      - (ProjEdge iVar - (primTransform nSp nD V_j iVar - primTransform nSp nD V_i iVar))
        * Edge d / dist2
  let MeanEve : ℕ → ℝ := fun s => 0.5 * (eve_i s + eve_j s)
  let MeanDs : ℕ → ℝ := fun s => 0.5 * (Ds_i s + Ds_j s)
  getViscousProjFlux nSp nD MeanPrim CorrGrad MeanEve N MeanDs
    (0.5 * (mu_i + mu_j)) (0.5 * (ktr_i + ktr_j)) (0.5 * (kve_i + kve_j)) calcHs

/-! ## Source terms (`CSource_TNE2`, lines 3235–3699) -/

/-- `CSource_TNE2::GetKeqConstants` (lines 3235–3286).  `table` is the
6×5 `RxnConstantTable` for the reaction, `Nd` the mixture number density
already converted to 1/cm³.  `pwr = floor(log10 N)` and
`iIndex = pwr - tbl_offset` are `unsigned short` variables, so both are taken
modulo 2^16 and the test `iIndex <= 0` only fires when `iIndex == 0`. -/
noncomputable def getKeqConstants (table : ℕ → ℕ → ℝ) (Nd : ℝ) : ℕ → ℝ :=
  let pwrU : ℕ := ((⌊Real.logb 10 Nd⌋ : ℤ) % 65536).toNat
  let iIndex : ℕ := (((pwrU : ℤ) - 14) % 65536).toNat
  if iIndex = 0 then fun ii => table 0 ii
  else if 5 ≤ iIndex then fun ii => table 5 ii
  else
    let tmp1 : ℝ := 10 ^ pwrU
    let tmp2 : ℝ := 10 ^ (pwrU + 1)
    fun ii => (table (iIndex + 1) ii - table iIndex ii) / (tmp2 - tmp1) * (Nd - tmp1)
      + table iIndex ii

/-- The mixture number density in 1/cm³ computed by `GetKeqConstants`
(lines 3246–3252): `N = (sum_s rho_s/Ms_s · Avogadro) · 1e-6`. -/
noncomputable def mixtureNumberDensityCGS (nSp : ℕ) (Ms rhos : ℕ → ℝ) (Av : ℝ) : ℝ :=
  (∑ s ∈ range nSp, rhos s / Ms s * Av) * 1e-6

/-- The species-density rows of the residual contribution of a single reaction
in `CSource_TNE2::ComputeChemistry` (lines 3401–3418): each of the three
product slots `Rp ii ≠ nSpecies` adds `Ms (fwdRxn-bkwRxn) Volume` into its
species row, each reactant slot `Rf ii ≠ nSpecies` subtracts it. -/
noncomputable def chemSpeciesResidual (nSp : ℕ) (Ms : ℕ → ℝ) (Rf Rp : ℕ → ℕ)
    (fwdRxn bkwRxn Vol : ℝ) : ℕ → ℝ :=
  fun s =>
    if s < nSp then
      (∑ ii ∈ range 3, if Rp ii = s then Ms s * (fwdRxn - bkwRxn) * Vol else 0)
        - (∑ ii ∈ range 3, if Rf ii = s then Ms s * (fwdRxn - bkwRxn) * Vol else 0)
    else 0

/-! Vibrational relaxation times
(`CSource_TNE2::ComputeVibRelaxation`, lines 3590–3637) -/

/-- Mole fractions `X_s = (rho_s/Ms_s)/conc` (lines 3591–3598). -/
noncomputable def molFrac (nSp : ℕ) (Ms rhos : ℕ → ℝ) : ℕ → ℝ :=
  fun s => (rhos s / Ms s) / (∑ r ∈ range nSp, rhos r / Ms r)

/-- Mixture number density `N = sum_s rho_s/Ms_s · Avogadro` (line 3595). -/
noncomputable def numberDensity (nSp : ℕ) (Ms rhos : ℕ → ℝ) (Av : ℝ) : ℝ :=
  ∑ r ∈ range nSp, rhos r / Ms r * Av

/-- Millikan–White pair relaxation time `tau_sr[s][r]` (lines 3612–3616):
`tau_sr = 101325/P · exp(A_sr (T^(-1/3) - B_sr) - 18.42)` with
`A_sr = 1.16e-3 sqrt(mu) thetav_s^(4/3)`, `B_sr = 0.015 mu^(1/4)`,
`mu = Ms_s Ms_r/(Ms_s + Ms_r)`. -/
noncomputable def tauMWpair (Ms thetav : ℕ → ℝ) (P T : ℝ) (s r : ℕ) : ℝ :=
  let mu := Ms s * Ms r / (Ms s + Ms r)
  let A_sr := 1.16e-3 * Real.sqrt mu * thetav s ^ ((4 : ℝ) / 3)
  let B_sr := 0.015 * mu ^ ((0.25 : ℝ))
  101325 / P * Real.exp (A_sr * (T ^ (-(1 : ℝ) / 3) - B_sr) - 18.42)

/-- Millikan–White mixture relaxation time
`tauMW[s] = (sum_r X_r)/(sum_r X_r / tau_sr[s][r])` (lines 3610–3620). -/
noncomputable def tauMWmix (nSp : ℕ) (Ms thetav rhos : ℕ → ℝ) (P T : ℝ) (s : ℕ) : ℝ :=
  (∑ r ∈ range nSp, molFrac nSp Ms rhos r)
    / (∑ r ∈ range nSp, molFrac nSp Ms rhos r / tauMWpair Ms thetav P T s r)

/-- Park limiting-cross-section time `tauP[s] = 1/(sigma_s Cs N)`
(lines 3622–3626) with `Cs = sqrt(8 Ru T/(pi Ms_s))` and
`sigma_s = 1e-20 (5e4)²/T²`. -/
noncomputable def tauPark (nSp : ℕ) (Ms rhos : ℕ → ℝ) (Ru Av T : ℝ) (s : ℕ) : ℝ :=
  let Cs := Real.sqrt (8 * Ru * T / (Real.pi * Ms s))
  let sig_s := 1e-20 * (5e4 * 5e4) / (T * T)
  1 / (sig_s * Cs * numberDensity nSp Ms rhos Av)

/-- Total species relaxation time `taus[s] = tauMW[s] + tauP[s]` (line 3629). -/
noncomputable def tauVib (nSp : ℕ) (Ms thetav rhos : ℕ → ℝ) (Ru Av P T : ℝ) (s : ℕ) : ℝ :=
  tauMWmix nSp Ms thetav rhos P T s + tauPark nSp Ms rhos Ru Av T s

/-! ## Helper lemmas -/

/-- The Harten–Hyman correction followed by the absolute-value pass never
shrinks an eigenvalue below its uncorrected magnitude. -/
theorem abs_le_abs_entropyFix (l e : ℝ) : |l| ≤ |entropyFix l e| := by
  unfold entropyFix
  by_cases h : |l| < e
  · have he : 0 < e := lt_of_le_of_lt (abs_nonneg l) h
    have hval : |l| ≤ (l * l + e * e) / (2 * e) := by
      rw [le_div_iff₀ (by linarith)]
      nlinarith [sq_nonneg (|l| - e), abs_mul_abs_self l]
    simp only [h, if_true]
    exact hval.trans (le_abs_self _)
  · simp [h]

/-- Every eigenvalue entry other than the two acoustic slots equals the
projected velocity. -/
theorem eigenRaw_eq_of_ne (nSp nD : ℕ) (v a : ℝ) (m : ℕ)
    (h1 : m ≠ nSp + nD - 1) (h2 : m ≠ nSp + nD) : eigenRaw nSp nD v a m = v := by
  simp [eigenRaw, h1, h2]

/-! ## C4 -/

/-- C4: in the Roe scheme, for every state pair and every eigenvalue index,
the value of `Lambda` after the Harten–Hyman entropy correction and the
subsequent absolute-value pass is at least the absolute value of the
uncorrected eigenvalue at that index. -/
theorem C4_roe_entropy_fix_lower_bound (nSp nD : ℕ) (pv a pvi pvj ai aj : ℝ) (k : ℕ) :
    |eigenRaw nSp nD pv a k| ≤ roeLambdaFixed nSp nD pv a pvi pvj ai aj k :=
  abs_le_abs_entropyFix _ _

/-! ## C9 -/

/-- C9: the stale-index `Epsilon` entries of the Roe entropy fix coincide with
the intended per-mode values, because every eigenvalue entry the stale indices
reach equals the Roe projected velocity; consequently the corrected `Lambda`
arrays of the stale-index and intended-index versions are identical. -/
theorem C9_roe_entropy_fix_stale_index_equiv (nSp nD : ℕ) (hSp : 1 ≤ nSp) (hD : 2 ≤ nD)
    (pv a pvi pvj ai aj : ℝ) :
    roeEpsilonStale nSp nD (eigenRaw nSp nD pv a) pvi pvj ai aj
      = roeEpsilonIntended nSp nD (eigenRaw nSp nD pv a) pvi pvj ai aj ∧
    roeLambdaFixed nSp nD pv a pvi pvj ai aj
      = roeLambdaFixedIntended nSp nD pv a pvi pvj ai aj := by
  have heps : roeEpsilonStale nSp nD (eigenRaw nSp nD pv a) pvi pvj ai aj
      = roeEpsilonIntended nSp nD (eigenRaw nSp nD pv a) pvi pvj ai aj := by
    funext k
    unfold roeEpsilonStale roeEpsilonIntended
    have hstale : eigenRaw nSp nD pv a (nD - 1) = pv :=
      eigenRaw_eq_of_ne nSp nD pv a _ (by omega) (by omega)
    by_cases h1 : k < nSp
    · have hk : eigenRaw nSp nD pv a k = pv :=
        eigenRaw_eq_of_ne nSp nD pv a _ (by omega) (by omega)
      simp [h1, hstale, hk]
    · by_cases h2 : k < nSp + nD - 1
      · have hidx : eigenRaw nSp nD pv a (k - nSp) = pv :=
          eigenRaw_eq_of_ne nSp nD pv a _ (by omega) (by omega)
        have hk : eigenRaw nSp nD pv a k = pv :=
          eigenRaw_eq_of_ne nSp nD pv a _ (by omega) (by omega)
        simp [h1, h2, hidx, hk]
      · by_cases h3 : k = nSp + nD - 1
        · simp [h1, h2, h3, show ¬(nSp + nD - 1 < nSp) by omega]
        · by_cases h4 : k = nSp + nD
          · simp [h1, h2, h3, h4, show ¬(nSp + nD < nSp + nD - 1) by omega,
              show ¬(nSp + nD = nSp + nD - 1) by omega]
          · by_cases h5 : k = nSp + nD + 1
            · have hvib : eigenRaw nSp nD pv a (nSp + nD + 1) = pv :=
                eigenRaw_eq_of_ne nSp nD pv a _ (by omega) (by omega)
              simp [h1, h2, h3, h4, h5, hstale, hvib,
                show ¬(nSp + nD + 1 < nSp) by omega,
                show ¬(nSp + nD + 1 < nSp + nD - 1) by omega,
                show ¬(nSp + nD + 1 = nSp + nD - 1) by omega]
            · simp [h1, h2, h3, h4, h5]
  refine ⟨heps, ?_⟩
  funext k
  unfold roeLambdaFixed roeLambdaFixedIntended
  rw [heps]

/-- Witness for C9 at `nSpecies = 2`, `nDim = 2`. -/
theorem C9_roe_entropy_fix_stale_index_equiv_witness :
    roeEpsilonStale 2 2 (eigenRaw 2 2 1 3) 0 0 2 2
      = roeEpsilonIntended 2 2 (eigenRaw 2 2 1 3) 0 0 2 2 ∧
    roeLambdaFixed 2 2 1 3 0 0 2 2 = roeLambdaFixedIntended 2 2 1 3 0 0 2 2 :=
  C9_roe_entropy_fix_stale_index_equiv 2 2 (by norm_num) (by norm_num) 1 3 0 0 2 2

/-! ## C2 -/

/-- C2: evaluating `GetKeqConstants` at a mixture number density of
`10^13` 1/cm³ — one decade *below* the table's lowest decade `10^14` — returns
the *highest* table row `RxnConstantTable[5]`, not the lowest row the claim
(and the code's own clamping comment) prescribe: `iIndex = pwr - 14` is
`unsigned short`, so `13 - 14` wraps to `65535 ≥ 5`.  The concrete input is a
single-species mixture with `rho_1 = Ms_1 = 1` and Avogadro constant `1e19`,
whose number density in 1/cm³ is exactly `1e13`. -/
theorem C2_keq_below_table_returns_top_row (table : ℕ → ℕ → ℝ) :
    mixtureNumberDensityCGS 1 (fun _ => 1) (fun _ => 1) 1e19 = 1e13 ∧
    getKeqConstants table (mixtureNumberDensityCGS 1 (fun _ => 1) (fun _ => 1) 1e19)
      = fun ii => table 5 ii := by
  have hN : mixtureNumberDensityCGS 1 (fun _ => 1) (fun _ => 1) 1e19 = 1e13 := by
    unfold mixtureNumberDensityCGS
    norm_num
  refine ⟨hN, ?_⟩
  rw [hN]
  have h13 : (1e13 : ℝ) = (10 : ℝ) ^ (13 : ℕ) := by norm_num
  have hlog : Real.logb 10 (1e13 : ℝ) = 13 := by
    rw [h13, Real.logb_pow, Real.logb_self_eq_one (by norm_num)]
    norm_num
  have hfloor : (⌊Real.logb 10 (1e13 : ℝ)⌋ : ℤ) = 13 := by
    rw [hlog]
    exact_mod_cast Int.floor_intCast 13
  unfold getKeqConstants
  rw [hfloor]
  norm_num

/-! ## C3 -/

/-- C3: at the concrete input `nSpecies = 1`, `nDim = 2`,
`Normal = (3,4)`, velocity `(1,0)`, sound speed `a_i = 2`, the code's
`Local_Lambda_i` evaluates to `3 = |ProjVel_i|`: the `a_i * Area` term
contributes nothing because `Area` was reset to `0` and square-rooted without
re-accumulating the normal (lines 1964–1969).  The spectral radius the claim
describes, `|ProjVel_i| + a_i * norm(Normal)`, is `13 ≠ 3`. -/
theorem C3_centlax_spectral_radius_eval :
    centLaxLocalLambda 1 2 (fun i => if i = 3 then 1 else if i = 8 then 2 else 0)
        (fun d => if d = 0 then 3 else if d = 1 then 4 else 0) = 3 ∧
    |projVel 1 2 (fun i => if i = 3 then 1 else if i = 8 then 2 else 0)
        (fun d => if d = 0 then 3 else if d = 1 then 4 else 0)|
      + (fun i : ℕ => if i = 3 then (1 : ℝ) else if i = 8 then 2 else 0) (A_INDEX 1 2)
        * faceArea 2 (fun d => if d = 0 then 3 else if d = 1 then 4 else 0) = 13 := by
  have hpv : projVel 1 2 (fun i => if i = 3 then (1 : ℝ) else if i = 8 then 2 else 0)
      (fun d => if d = 0 then (3 : ℝ) else if d = 1 then 4 else 0) = 3 := by
    unfold projVel VEL_INDEX
    rw [Finset.sum_range_succ, Finset.sum_range_succ]
    norm_num
  have hArea : faceArea 2 (fun d => if d = 0 then (3 : ℝ) else if d = 1 then 4 else 0) = 5 := by
    unfold faceArea
    rw [Finset.sum_range_succ, Finset.sum_range_succ]
    norm_num
    rw [show (25 : ℝ) = 5 ^ 2 by norm_num]
    exact Real.sqrt_sq (by norm_num)
  constructor
  · unfold centLaxLocalLambda A_INDEX
    rw [hpv]
    norm_num
  · rw [hpv, hArea]
    unfold A_INDEX
    norm_num

/-! ## C10 -/

/-- C10: with the ionization flag set, both viscous flux implementations
(`CAvgGrad_TNE2::GetViscousProjFlux` and
`CAvgGradCorrected_TNE2::GetViscousProjFlux`) print a diagnostic and terminate
(`exit(1)`, modelled as `Except.error`) before completing the flux; with the
flag unset the terminating branch is unreachable and both complete normally,
returning the viscous flux with no other error path. -/
theorem C10_viscous_ionization_guard (nSp nD : ℕ) (Vp : ℕ → ℝ) (GV : ℕ → ℕ → ℝ)
    (eve N Ds : ℕ → ℝ) (mu ktr kve : ℝ) (calcHs : ℝ → ℝ → ℕ → ℝ) :
    (0 < nD →
      avgGradGetViscousProjFlux nSp nD Vp GV eve N Ds mu ktr kve calcHs true
        = Except.error "GetViscProjFlux -- NEED TO IMPLEMENT IONIZED FUNCTIONALITY!!!" ∧
      avgGradCorrectedGetViscousProjFlux nSp nD Vp GV eve N Ds mu ktr kve calcHs true
        = Except.error "GetViscProjFlux -- NEED TO IMPLEMENT IONIZED FUNCTIONALITY!!!") ∧
    (avgGradGetViscousProjFlux nSp nD Vp GV eve N Ds mu ktr kve calcHs false
        = Except.ok (getViscousProjFlux nSp nD Vp GV eve N Ds mu ktr kve calcHs) ∧
      avgGradCorrectedGetViscousProjFlux nSp nD Vp GV eve N Ds mu ktr kve calcHs false
        = Except.ok (getViscousProjFlux nSp nD Vp GV eve N Ds mu ktr kve calcHs)) := by
  constructor
  · intro hD
    constructor <;>
      simp [avgGradGetViscousProjFlux, avgGradCorrectedGetViscousProjFlux, hD]
  · constructor <;>
      simp [avgGradGetViscousProjFlux, avgGradCorrectedGetViscousProjFlux]

/-- Witness for C10 at `nDim = 2` and constant inputs. -/
theorem C10_viscous_ionization_guard_witness :
    avgGradGetViscousProjFlux 1 2 (fun _ => 1) (fun _ _ => 1) (fun _ => 1) (fun _ => 1)
        (fun _ => 1) 1 1 1 (fun _ _ _ => 1) true
      = Except.error "GetViscProjFlux -- NEED TO IMPLEMENT IONIZED FUNCTIONALITY!!!" ∧
    avgGradGetViscousProjFlux 1 2 (fun _ => 1) (fun _ _ => 1) (fun _ => 1) (fun _ => 1)
        (fun _ => 1) 1 1 1 (fun _ _ _ => 1) false
      = Except.ok (getViscousProjFlux 1 2 (fun _ => 1) (fun _ _ => 1) (fun _ => 1)
          (fun _ => 1) (fun _ => 1) 1 1 1 (fun _ _ _ => 1)) :=
  ⟨((C10_viscous_ionization_guard 1 2 (fun _ => 1) (fun _ _ => 1) (fun _ => 1) (fun _ => 1)
      (fun _ => 1) 1 1 1 (fun _ _ _ => 1)).1 (by norm_num)).1,
   ((C10_viscous_ionization_guard 1 2 (fun _ => 1) (fun _ _ => 1) (fun _ => 1) (fun _ => 1)
      (fun _ => 1) 1 1 1 (fun _ _ _ => 1)).2).1⟩

/-! ## C6 -/

/-- Summing the one-slot indicator contributions over all species rows picks
out the slot's molar mass whenever the slot holds a real species. -/
theorem chemSlotSum (nSp : ℕ) (Ms : ℕ → ℝ) (R : ℕ → ℕ) (c : ℝ)
    (hR : ∀ ii ∈ range 3, R ii ≤ nSp) :
    (∑ s ∈ range nSp, ∑ ii ∈ range 3, if R ii = s then Ms s * c else 0)
      = (∑ ii ∈ range 3, if R ii ≠ nSp then Ms (R ii) else 0) * c := by
  rw [Finset.sum_comm, Finset.sum_mul]
  refine Finset.sum_congr rfl fun ii hii => ?_
  rw [Finset.sum_ite_eq (range nSp) (R ii) (fun s => Ms s * c)]
  by_cases h : R ii = nSp
  · simp [h]
  · have hlt : R ii < nSp := lt_of_le_of_ne (hR ii hii) h
    simp [Finset.mem_range.mpr hlt, h]

/-- C6: for a single reaction step of `ComputeChemistry`, the sum over all
species rows of the residual contribution equals `Volume (fwdRxn - bkwRxn)`
times the difference between the molar masses summed over the reaction's
product slots and over its reactant slots (slots holding the sentinel
`nSpecies` contribute nothing); in particular the net species-mass creation is
exactly zero whenever those two molar-mass sums balance. -/
theorem C6_chemistry_mass_balance (nSp : ℕ) (Ms : ℕ → ℝ) (Rf Rp : ℕ → ℕ)
    (fwdRxn bkwRxn Vol : ℝ) (hmap : ∀ ii ∈ range 3, Rf ii ≤ nSp ∧ Rp ii ≤ nSp) :
    (∑ s ∈ range nSp, chemSpeciesResidual nSp Ms Rf Rp fwdRxn bkwRxn Vol s)
      = Vol * (fwdRxn - bkwRxn)
        * ((∑ ii ∈ range 3, if Rp ii ≠ nSp then Ms (Rp ii) else 0)
          - (∑ ii ∈ range 3, if Rf ii ≠ nSp then Ms (Rf ii) else 0)) ∧
    ((∑ ii ∈ range 3, if Rp ii ≠ nSp then Ms (Rp ii) else 0)
        = (∑ ii ∈ range 3, if Rf ii ≠ nSp then Ms (Rf ii) else 0) →
      (∑ s ∈ range nSp, chemSpeciesResidual nSp Ms Rf Rp fwdRxn bkwRxn Vol s) = 0) := by
  have hmain : (∑ s ∈ range nSp, chemSpeciesResidual nSp Ms Rf Rp fwdRxn bkwRxn Vol s)
      = Vol * (fwdRxn - bkwRxn)
        * ((∑ ii ∈ range 3, if Rp ii ≠ nSp then Ms (Rp ii) else 0)
          - (∑ ii ∈ range 3, if Rf ii ≠ nSp then Ms (Rf ii) else 0)) := by
    have hstep : (∑ s ∈ range nSp, chemSpeciesResidual nSp Ms Rf Rp fwdRxn bkwRxn Vol s)
        = (∑ s ∈ range nSp,
            ((∑ ii ∈ range 3, if Rp ii = s then Ms s * (fwdRxn - bkwRxn) * Vol else 0)
              - (∑ ii ∈ range 3, if Rf ii = s then Ms s * (fwdRxn - bkwRxn) * Vol else 0))) :=
      Finset.sum_congr rfl fun s hs => by
        simp [chemSpeciesResidual, Finset.mem_range.mp hs]
    rw [hstep, Finset.sum_sub_distrib]
    have h1 := chemSlotSum nSp Ms Rp ((fwdRxn - bkwRxn) * Vol) (fun ii hii => (hmap ii hii).2)
    have h2 := chemSlotSum nSp Ms Rf ((fwdRxn - bkwRxn) * Vol) (fun ii hii => (hmap ii hii).1)
    have h1' : (∑ s ∈ range nSp, ∑ ii ∈ range 3,
        if Rp ii = s then Ms s * (fwdRxn - bkwRxn) * Vol else 0)
        = (∑ ii ∈ range 3, if Rp ii ≠ nSp then Ms (Rp ii) else 0) * ((fwdRxn - bkwRxn) * Vol) := by
      rw [← h1]
      refine Finset.sum_congr rfl fun s _ => Finset.sum_congr rfl fun ii _ => ?_
      ring_nf
    have h2' : (∑ s ∈ range nSp, ∑ ii ∈ range 3,
        if Rf ii = s then Ms s * (fwdRxn - bkwRxn) * Vol else 0)
        = (∑ ii ∈ range 3, if Rf ii ≠ nSp then Ms (Rf ii) else 0) * ((fwdRxn - bkwRxn) * Vol) := by
      rw [← h2]
      refine Finset.sum_congr rfl fun s _ => Finset.sum_congr rfl fun ii _ => ?_
      ring_nf
    rw [h1', h2']
    ring
  exact ⟨hmain, fun hbal => by rw [hmain, hbal]; ring⟩

/-- Witness for C6: a two-species dissociation-like reaction
`(0, sentinel, sentinel) -> (1, sentinel, sentinel)` with `nSpecies = 2`. -/
theorem C6_chemistry_mass_balance_witness :
    (∑ s ∈ range 2, chemSpeciesResidual 2 (fun s => if s = 0 then 3 else 3)
        (fun ii => if ii = 0 then 0 else 2) (fun ii => if ii = 0 then 1 else 2) 7 5 11 s)
      = 11 * (7 - 5)
        * ((∑ ii ∈ range 3, if (fun ii => if ii = 0 then 1 else 2) ii ≠ 2
              then (fun s => if s = 0 then (3 : ℝ) else 3) ((fun ii => if ii = 0 then 1 else 2) ii) else 0)
          - (∑ ii ∈ range 3, if (fun ii => if ii = 0 then 0 else 2) ii ≠ 2
              then (fun s => if s = 0 then (3 : ℝ) else 3) ((fun ii => if ii = 0 then 0 else 2) ii) else 0)) ∧
    (∑ s ∈ range 2, chemSpeciesResidual 2 (fun s => if s = 0 then 3 else 3)
        (fun ii => if ii = 0 then 0 else 2) (fun ii => if ii = 0 then 1 else 2) 7 5 11 s) = 0 := by
  have h := C6_chemistry_mass_balance 2 (fun s => if s = 0 then (3 : ℝ) else 3)
    (fun ii => if ii = 0 then 0 else 2) (fun ii => if ii = 0 then 1 else 2) 7 5 11
    (by
      intro ii hii
      constructor <;> · simp only; split <;> norm_num)
  refine ⟨h.1, h.2 ?_⟩
  rw [Finset.sum_range_succ, Finset.sum_range_succ, Finset.sum_range_succ,
    Finset.sum_range_succ, Finset.sum_range_succ, Finset.sum_range_succ]
  norm_num

/-! ## C8 -/

/-- C8: for every state with `T > 0`, `P > 0`, positive molar masses,
nonnegative species densities at least one of which is positive (hence
nonnegative mole fractions with at least one positive), and positive gas and
Avogadro constants, every Millikan–White pair time `tau_sr[s][r]`, every
mixture time `tauMW[s]`, every Park limiting-cross-section time `tauP[s]` and
every total relaxation time `taus[s] = tauMW[s] + tauP[s]` is strictly
positive. -/
theorem C8_vib_relaxation_times_positive (nSp : ℕ) (Ms thetav rhos : ℕ → ℝ)
    (Ru Av P T : ℝ) (hT : 0 < T) (hP : 0 < P) (hRu : 0 < Ru) (hAv : 0 < Av)
    (hMs : ∀ s, 0 < Ms s) (hrhos : ∀ s, 0 ≤ rhos s)
    (hex : ∃ s ∈ range nSp, 0 < rhos s) :
    (∀ s r, 0 < tauMWpair Ms thetav P T s r) ∧
    (∀ s, 0 < tauMWmix nSp Ms thetav rhos P T s) ∧
    (∀ s, 0 < tauPark nSp Ms rhos Ru Av T s) ∧
    (∀ s, 0 < tauVib nSp Ms thetav rhos Ru Av P T s) := by
  obtain ⟨s0, hs0mem, hs0⟩ := hex
  have htau : ∀ s r, 0 < tauMWpair Ms thetav P T s r := by
    intro s r
    unfold tauMWpair
    have := Real.exp_pos
      ((1.16e-3 * Real.sqrt (Ms s * Ms r / (Ms s + Ms r)) * thetav s ^ ((4 : ℝ) / 3))
        * (T ^ (-(1 : ℝ) / 3) - 0.015 * (Ms s * Ms r / (Ms s + Ms r)) ^ ((0.25 : ℝ))) - 18.42)
    positivity
  have hconc : 0 < ∑ r ∈ range nSp, rhos r / Ms r :=
    Finset.sum_pos' (fun r _ => div_nonneg (hrhos r) (hMs r).le)
      ⟨s0, hs0mem, div_pos hs0 (hMs s0)⟩
  have hXnn : ∀ r, 0 ≤ molFrac nSp Ms rhos r := fun r =>
    div_nonneg (div_nonneg (hrhos r) (hMs r).le) hconc.le
  have hX0 : 0 < molFrac nSp Ms rhos s0 :=
    div_pos (div_pos hs0 (hMs s0)) hconc
  have hMW : ∀ s, 0 < tauMWmix nSp Ms thetav rhos P T s := by
    intro s
    unfold tauMWmix
    refine div_pos ?_ ?_
    · exact Finset.sum_pos' (fun r _ => hXnn r) ⟨s0, hs0mem, hX0⟩
    · exact Finset.sum_pos' (fun r _ => div_nonneg (hXnn r) (htau s r).le)
        ⟨s0, hs0mem, div_pos hX0 (htau s s0)⟩
  have hN : 0 < numberDensity nSp Ms rhos Av := by
    unfold numberDensity
    exact Finset.sum_pos' (fun r _ => mul_nonneg (div_nonneg (hrhos r) (hMs r).le) hAv.le)
      ⟨s0, hs0mem, mul_pos (div_pos hs0 (hMs s0)) hAv⟩
  have hPark : ∀ s, 0 < tauPark nSp Ms rhos Ru Av T s := by
    intro s
    unfold tauPark
    have hCs : 0 < Real.sqrt (8 * Ru * T / (Real.pi * Ms s)) := by
      refine Real.sqrt_pos.mpr ?_
      have := Real.pi_pos
      have := hMs s
      positivity
    have hsig : 0 < (1e-20 : ℝ) * (5e4 * 5e4) / (T * T) := by positivity
    positivity
  refine ⟨htau, hMW, hPark, fun s => add_pos (hMW s) (hPark s)⟩

/-- Witness for C8 at a trivial one-species mixture with unit parameters. -/
theorem C8_vib_relaxation_times_positive_witness :
    (∀ s r, 0 < tauMWpair (fun _ => 1) (fun _ => 1) 1 1 s r) ∧
    (∀ s, 0 < tauMWmix 1 (fun _ => 1) (fun _ => 1) (fun _ => 1) 1 1 s) ∧
    (∀ s, 0 < tauPark 1 (fun _ => 1) (fun _ => 1) 1 1 1 s) ∧
    (∀ s, 0 < tauVib 1 (fun _ => 1) (fun _ => 1) (fun _ => 1) 1 1 1 1 s) :=
  C8_vib_relaxation_times_positive 1 (fun _ => 1) (fun _ => 1) (fun _ => 1) 1 1 1 1
    (by norm_num) (by norm_num) (by norm_num) (by norm_num)
    (fun _ => by norm_num) (fun _ => by norm_num)
    ⟨0, by simp, by norm_num⟩

/-! ## Normal-flip and splitting identities -/

theorem faceArea_negVec (nD : ℕ) (N : ℕ → ℝ) : faceArea nD (negVec N) = faceArea nD N := by
  unfold faceArea negVec
  congr 1
  exact Finset.sum_congr rfl fun d _ => by ring

theorem unitNormal_negVec (nD : ℕ) (N : ℕ → ℝ) :
    unitNormal nD (negVec N) = negVec (unitNormal nD N) := by
  funext d
  show negVec N d / faceArea nD (negVec N) = negVec (unitNormal nD N) d
  rw [faceArea_negVec]
  unfold negVec unitNormal
  rw [neg_div]

theorem projVel_negVec (nSp nD : ℕ) (V n : ℕ → ℝ) :
    projVel nSp nD V (negVec n) = -projVel nSp nD V n := by
  unfold projVel negVec
  rw [← Finset.sum_neg_distrib]
  exact Finset.sum_congr rfl fun d _ => by ring

theorem mSplitPlus_neg (beta m : ℝ) : mSplitPlus beta (-m) = -mSplitMinus beta m := by
  unfold mSplitPlus mSplitMinus
  rw [abs_neg]
  split <;> ring

theorem mSplitMinus_neg (beta m : ℝ) : mSplitMinus beta (-m) = -mSplitPlus beta m := by
  unfold mSplitPlus mSplitMinus
  rw [abs_neg]
  split <;> ring

theorem pSplitPlus_neg (alpha m : ℝ) : pSplitPlus alpha (-m) = pSplitMinus alpha m := by
  unfold pSplitPlus pSplitMinus
  rw [abs_neg]
  split <;> ring

theorem pSplitMinus_neg (alpha m : ℝ) : pSplitMinus alpha (-m) = pSplitPlus alpha m := by
  unfold pSplitPlus pSplitMinus
  rw [abs_neg]
  split <;> ring

/-- Consistency of the Mach splitting: `M⁺(m) + M⁻(m) = m`. -/
theorem mSplit_sum (beta m : ℝ) : mSplitPlus beta m + mSplitMinus beta m = m := by
  unfold mSplitPlus mSplitMinus
  split <;> ring

/-- Consistency of the pressure splitting: `P⁺(m) + P⁻(m) = 1`. -/
theorem pSplit_sum (alpha m : ℝ) : pSplitPlus alpha m + pSplitMinus alpha m = 1 := by
  unfold pSplitPlus pSplitMinus
  split
  · ring
  · rename_i h
    have hm : m ≠ 0 := by
      intro h0
      rw [h0] at h
      simp at h
    field_simp
    ring

theorem ausmMF_swap (a_i a_j pvi pvj : ℝ) :
    ausmMF a_j a_i (-pvj) (-pvi) = -ausmMF a_i a_j pvi pvj := by
  unfold ausmMF
  rw [neg_div, neg_div, mSplitPlus_neg, mSplitMinus_neg]
  ring

theorem ausmPF_swap (P_i P_j a_i a_j pvi pvj : ℝ) :
    ausmPF P_j P_i a_j a_i (-pvj) (-pvi) = ausmPF P_i P_j a_i a_j pvi pvj := by
  unfold ausmPF
  rw [neg_div, neg_div, pSplitPlus_neg, pSplitMinus_neg]
  ring

theorem up2aF_swap (Gamma h_i h_j pvi pvj : ℝ) :
    up2aF Gamma h_j h_i (-pvj) (-pvi) = up2aF Gamma h_i h_j pvi pvj := by
  unfold up2aF
  rw [neg_neg, min_comm]

theorem up2MFsq_swap (mL mR : ℝ) : up2MFsq (-mR) (-mL) = up2MFsq mL mR := by
  unfold up2MFsq
  ring

theorem up2Mp_swap (Kp sigma fa MFsq rho_i rho_j aF P_i P_j : ℝ) :
    up2Mp Kp sigma fa MFsq (0.5 * (rho_j + rho_i)) aF P_j P_i
      = -up2Mp Kp sigma fa MFsq (0.5 * (rho_i + rho_j)) aF P_i P_j := by
  unfold up2Mp
  ring

theorem up2pFi_swap (sq_veli sq_velj pLP pRM rho_i rho_j aF : ℝ) :
    up2pFi sq_velj sq_veli pRM pLP rho_j rho_i aF
      = up2pFi sq_veli sq_velj pLP pRM rho_i rho_j aF := by
  unfold up2pFi
  rw [show (0.5 * (sq_velj + sq_veli) : ℝ) = 0.5 * (sq_veli + sq_velj) by ring]
  ring

theorem up2pF_swap (P_i P_j pLP pRM pFi : ℝ) :
    up2pF P_j P_i pRM pLP pFi = up2pF P_i P_j pLP pRM pFi := by
  unfold up2pF
  ring

theorem mswDP_swap (P_i P_j : ℝ) : mswDP P_j P_i = mswDP P_i P_j := by
  unfold mswDP
  rw [abs_sub_comm, min_comm]

theorem mswWeight_swap (nSp nD : ℕ) (V_i V_j : ℕ → ℝ) :
    mswWeight nSp nD V_j V_i = mswWeight nSp nD V_i V_j := by
  unfold mswWeight
  rw [mswDP_swap]

/-- Antisymmetry of the plain AUSM flux under exchanging the states and
flipping the normal. -/
theorem ausmComputeResidual_antisym (nSp nD : ℕ) (U_i U_j V_i V_j N : ℕ → ℝ) (i : ℕ) :
    ausmComputeResidual nSp nD U_i U_j V_i V_j N i
      = -ausmComputeResidual nSp nD U_j U_i V_j V_i (negVec N) i := by
  simp only [ausmComputeResidual]
  rw [faceArea_negVec, unitNormal_negVec]
  rw [projVel_negVec nSp nD V_j, projVel_negVec nSp nD V_i]
  rw [ausmMF_swap, ausmPF_swap]
  simp only [negVec]
  rw [abs_neg]
  split_ifs with h
  · ring
  · ring

theorem neg_add_three (a b c : ℝ) : -a + -b + -c = -(b + a + c) := by ring

/-- Antisymmetry of the AUSM+-up2 flux under exchanging the states and
flipping the normal. -/
theorem ausmPlusUp2ComputeResidual_antisym (nSp nD : ℕ) (Minf Gamma : ℝ)
    (U_i U_j V_i V_j N : ℕ → ℝ) (i : ℕ) :
    ausmPlusUp2ComputeResidual nSp nD Minf Gamma U_i U_j V_i V_j N i
      = -ausmPlusUp2ComputeResidual nSp nD Minf Gamma U_j U_i V_j V_i (negVec N) i := by
  simp only [ausmPlusUp2ComputeResidual]
  rw [faceArea_negVec, unitNormal_negVec]
  rw [projVel_negVec nSp nD V_j, projVel_negVec nSp nD V_i]
  rw [up2aF_swap]
  simp only [neg_div]
  rw [up2MFsq_swap]
  conv_rhs => rw [up2Mp_swap]
  rw [mSplitPlus_neg, mSplitMinus_neg, pSplitPlus_neg, pSplitMinus_neg]
  conv_rhs => rw [up2pFi_swap, up2pF_swap]
  rw [neg_add_three, abs_neg]
  simp only [negVec]
  split_ifs with h
  · ring
  · ring

theorem neg_weight (a b x y : ℝ) : a * -x + b * -y = -(a * x + b * y) := by ring

theorem swapAc_swapAc (nSp nD : ℕ) (hD : 1 ≤ nSp + nD) (c : ℕ → ℝ) :
    swapAc nSp nD (swapAc nSp nD c) = c := by
  funext k
  unfold swapAc
  split_ifs <;> first
    | rfl
    | (exfalso; omega)
    | (congr 1; omega)

theorem mswLamPlus_neg (nSp nD : ℕ) (hD : 1 ≤ nSp + nD) (v a eps : ℝ) :
    mswLamPlus nSp nD (-v) a eps
      = fun k => -swapAc nSp nD (mswLamMinus nSp nD v a eps) k := by
  have hne : ¬(nSp + nD = nSp + nD - 1) := by omega
  funext k
  simp only [mswLamPlus, mswLamMinus, swapAc]
  by_cases h1 : k = nSp + nD - 1
  · simp [h1, hne]
    rw [show ((-v + a) * (-v + a) + eps * eps : ℝ) = (v - a) * (v - a) + eps * eps by ring]
    ring
  · by_cases h2 : k = nSp + nD
    · simp [h1, h2, hne]
      rw [show ((-v - a) * (-v - a) + eps * eps : ℝ) = (v + a) * (v + a) + eps * eps by ring]
      ring
    · simp [h1, h2]
      ring

theorem mswLamMinus_neg (nSp nD : ℕ) (hD : 1 ≤ nSp + nD) (v a eps : ℝ) :
    mswLamMinus nSp nD (-v) a eps
      = fun k => -swapAc nSp nD (mswLamPlus nSp nD v a eps) k := by
  have hne : ¬(nSp + nD = nSp + nD - 1) := by omega
  funext k
  simp only [mswLamPlus, mswLamMinus, swapAc]
  by_cases h1 : k = nSp + nD - 1
  · simp [h1, hne]
    rw [show ((-v + a) * (-v + a) + eps * eps : ℝ) = (v - a) * (v - a) + eps * eps by ring]
    ring
  · by_cases h2 : k = nSp + nD
    · simp [h1, h2, hne]
      rw [show ((-v - a) * (-v - a) + eps * eps : ℝ) = (v + a) * (v + a) + eps * eps by ring]
      ring
    · simp [h1, h2]
      ring

theorem pencil_neg (nVar : ℕ) (P Pinv : ℕ → ℕ → ℝ) (c : ℕ → ℝ) (i j : ℕ) :
    pencil nVar P Pinv (fun k => -(c k)) i j = -pencil nVar P Pinv c i j := by
  unfold pencil
  rw [← Finset.sum_neg_distrib]
  exact Finset.sum_congr rfl fun k _ => by ring

theorem sum_neg_mul (n : ℕ) (p U : ℕ → ℝ) (A : ℝ) :
    (∑ j ∈ range n, -p j * U j * A) = -(∑ j ∈ range n, p j * U j * A) := by
  rw [← Finset.sum_neg_distrib]
  exact Finset.sum_congr rfl fun j _ => by ring

/-- Antisymmetry of the MSW flux under exchanging the states and flipping the
normal, given the spec §4.1 eigenstructure property of the external
`GetPMatrix`/`GetPMatrix_inv` kernel: since `A(n) = P Λ P⁻¹` exactly and
`A(-n) = -A(n)`, the kernel pencil at `-n` with any coefficient vector equals
the pencil at `n` with the two acoustic slots exchanged. -/
theorem mswComputeResidual_antisym (nSp nD : ℕ) (hD : 1 ≤ nSp + nD)
    (PM PMI : MatKernel)
    (hflip : ∀ (Ua Va dPa n c : ℕ → ℝ) (i j : ℕ),
      pencil (nVarOf nSp nD) (PM Ua Va dPa (negVec n)) (PMI Ua Va dPa (negVec n)) c i j
        = pencil (nVarOf nSp nD) (PM Ua Va dPa n) (PMI Ua Va dPa n) (swapAc nSp nD c) i j)
    (U_i U_j V_i V_j dPdU_i dPdU_j N : ℕ → ℝ) (i : ℕ) :
    mswComputeResidual nSp nD PM PMI U_i U_j V_i V_j dPdU_i dPdU_j N i
      = -mswComputeResidual nSp nD PM PMI U_j U_i V_j V_i dPdU_j dPdU_i (negVec N) i := by
  have hw : mswWeight nSp nD V_j V_i = mswWeight nSp nD V_i V_j := mswWeight_swap nSp nD V_i V_j
  simp only [mswComputeResidual]
  rw [faceArea_negVec, unitNormal_negVec]
  simp only [projVel_negVec]
  simp only [hw]
  simp only [neg_weight]
  simp only [mswLamPlus_neg nSp nD hD, mswLamMinus_neg nSp nD hD]
  simp only [pencil_neg]
  simp only [hflip]
  simp only [swapAc_swapAc nSp nD hD]
  simp only [sum_neg_mul]
  ring

/-! ## C5 -/

/-- C5: for the MSW, AUSM and AUSM+-up2 schemes, for every pair of states with
positive density, pressure and sound speed and every nonzero normal, swapping
the left and right inputs while negating the normal negates the returned flux
componentwise: `flux(L,R,n) = -flux(R,L,-n)`.  For MSW the eigenvector kernel
lives outside the sources at hand, so the MSW part is proved for every kernel
satisfying the spec §4.1 eigenstructure property (the pencil at `-n` equals
the pencil at `n` with the acoustic slots exchanged, since `A = P Λ P⁻¹`
exactly and `A(-n) = -A(n)`). -/
theorem C5_flux_antisymmetry :
    (∀ (nSp nD : ℕ) (U_i U_j V_i V_j N : ℕ → ℝ),
      0 < V_i (RHO_INDEX nSp nD) → 0 < V_j (RHO_INDEX nSp nD) →
      0 < V_i (P_INDEX nSp nD) → 0 < V_j (P_INDEX nSp nD) →
      0 < V_i (A_INDEX nSp nD) → 0 < V_j (A_INDEX nSp nD) →
      (∃ d, d < nD ∧ N d ≠ 0) →
      ∀ i, ausmComputeResidual nSp nD U_i U_j V_i V_j N i
        = -ausmComputeResidual nSp nD U_j U_i V_j V_i (negVec N) i) ∧
    (∀ (nSp nD : ℕ) (Minf Gamma : ℝ) (U_i U_j V_i V_j N : ℕ → ℝ),
      0 < V_i (RHO_INDEX nSp nD) → 0 < V_j (RHO_INDEX nSp nD) →
      0 < V_i (P_INDEX nSp nD) → 0 < V_j (P_INDEX nSp nD) →
      0 < V_i (A_INDEX nSp nD) → 0 < V_j (A_INDEX nSp nD) →
      (∃ d, d < nD ∧ N d ≠ 0) →
      ∀ i, ausmPlusUp2ComputeResidual nSp nD Minf Gamma U_i U_j V_i V_j N i
        = -ausmPlusUp2ComputeResidual nSp nD Minf Gamma U_j U_i V_j V_i (negVec N) i) ∧
    (∀ (nSp nD : ℕ), 1 ≤ nSp + nD → ∀ (PM PMI : MatKernel),
      (∀ (Ua Va dPa n c : ℕ → ℝ) (i j : ℕ),
        pencil (nVarOf nSp nD) (PM Ua Va dPa (negVec n)) (PMI Ua Va dPa (negVec n)) c i j
          = pencil (nVarOf nSp nD) (PM Ua Va dPa n) (PMI Ua Va dPa n) (swapAc nSp nD c) i j) →
      ∀ (U_i U_j V_i V_j dPdU_i dPdU_j N : ℕ → ℝ),
      0 < V_i (RHO_INDEX nSp nD) → 0 < V_j (RHO_INDEX nSp nD) →
      0 < V_i (P_INDEX nSp nD) → 0 < V_j (P_INDEX nSp nD) →
      0 < V_i (A_INDEX nSp nD) → 0 < V_j (A_INDEX nSp nD) →
      (∃ d, d < nD ∧ N d ≠ 0) →
      ∀ i, mswComputeResidual nSp nD PM PMI U_i U_j V_i V_j dPdU_i dPdU_j N i
        = -mswComputeResidual nSp nD PM PMI U_j U_i V_j V_i dPdU_j dPdU_i (negVec N) i) := by
  refine ⟨?_, ?_, ?_⟩
  · intro nSp nD U_i U_j V_i V_j N _ _ _ _ _ _ _ i
    exact ausmComputeResidual_antisym nSp nD U_i U_j V_i V_j N i
  · intro nSp nD Minf Gamma U_i U_j V_i V_j N _ _ _ _ _ _ _ i
    exact ausmPlusUp2ComputeResidual_antisym nSp nD Minf Gamma U_i U_j V_i V_j N i
  · intro nSp nD hD PM PMI hflip U_i U_j V_i V_j dPdU_i dPdU_j N _ _ _ _ _ _ _ i
    exact mswComputeResidual_antisym nSp nD hD PM PMI hflip U_i U_j V_i V_j dPdU_i dPdU_j N i

/-- Witness for C5 at a concrete positive state pair (`nSpecies = 1`,
`nDim = 2`, constant states 2/3 conserved and 1/4 primitive, `Normal = (1,1)`)
and, for MSW, the zero kernel (which satisfies the eigenstructure flip
property trivially). -/
theorem C5_flux_antisymmetry_witness :
    ausmComputeResidual 1 2 (fun _ => 2) (fun _ => 3) (fun _ => 1) (fun _ => 4) (fun _ => 1) 0
      = -ausmComputeResidual 1 2 (fun _ => 3) (fun _ => 2) (fun _ => 4) (fun _ => 1)
        (negVec fun _ => 1) 0 ∧
    ausmPlusUp2ComputeResidual 1 2 1 2 (fun _ => 2) (fun _ => 3) (fun _ => 1) (fun _ => 4)
        (fun _ => 1) 0
      = -ausmPlusUp2ComputeResidual 1 2 1 2 (fun _ => 3) (fun _ => 2) (fun _ => 4) (fun _ => 1)
        (negVec fun _ => 1) 0 ∧
    mswComputeResidual 1 2 (fun _ _ _ _ _ _ => 0) (fun _ _ _ _ _ _ => 0) (fun _ => 2)
        (fun _ => 3) (fun _ => 1) (fun _ => 4) (fun _ => 5) (fun _ => 6) (fun _ => 1) 0
      = -mswComputeResidual 1 2 (fun _ _ _ _ _ _ => 0) (fun _ _ _ _ _ _ => 0) (fun _ => 3)
        (fun _ => 2) (fun _ => 4) (fun _ => 1) (fun _ => 6) (fun _ => 5)
        (negVec fun _ => 1) 0 := by
  refine ⟨?_, ?_, ?_⟩
  · exact C5_flux_antisymmetry.1 1 2 (fun _ => 2) (fun _ => 3) (fun _ => 1) (fun _ => 4)
      (fun _ => 1) (by norm_num) (by norm_num) (by norm_num) (by norm_num) (by norm_num)
      (by norm_num) ⟨0, by norm_num, by norm_num⟩ 0
  · exact C5_flux_antisymmetry.2.1 1 2 1 2 (fun _ => 2) (fun _ => 3) (fun _ => 1) (fun _ => 4)
      (fun _ => 1) (by norm_num) (by norm_num) (by norm_num) (by norm_num) (by norm_num)
      (by norm_num) ⟨0, by norm_num, by norm_num⟩ 0
  · exact C5_flux_antisymmetry.2.2 1 2 (by norm_num) (fun _ _ _ _ _ _ => 0)
      (fun _ _ _ _ _ _ => 0) (fun Ua Va dPa n c i j => by simp [pencil])
      (fun _ => 2) (fun _ => 3) (fun _ => 1) (fun _ => 4) (fun _ => 5) (fun _ => 6) (fun _ => 1)
      (by norm_num) (by norm_num) (by norm_num) (by norm_num) (by norm_num) (by norm_num)
      ⟨0, by norm_num, by norm_num⟩ 0

/-! ## C7 -/

/-- C7 counterexample: the MSW flux does *not* use the star-evaluated pressure
derivatives.  At a concrete state pair (`nSpecies = 1`, `nDim = 2`, all
primitive entries 1, `U_i = (1,0,0,1,0)`, `U_j = (3,0,0,1,0)`,
`Normal = (1,0)`, node `dPdU = 1` everywhere) and a kernel returning `dPdU[0]`
in every matrix entry, the code's flux (node derivatives, lines 408/441)
evaluates to `10`, while the claim's formula with the star-evaluated
`dPdUst = CalcdPdU(Vst, Evest) = 5` evaluates to `50`. -/
theorem C7_counterexample :
    mswComputeResidual 1 2 (fun _ _ dP _ _ _ => dP 0) (fun _ _ _ _ _ _ => 1)
        (fun i => if i = 0 then 1 else if i = 3 then 1 else 0)
        (fun i => if i = 0 then 3 else if i = 3 then 1 else 0)
        (fun _ => 1) (fun _ => 1) (fun _ => 1) (fun _ => 1)
        (fun d => if d = 0 then 1 else 0) 0 = 10 ∧
    mswComputeResidualSpecStar 1 2 (fun _ _ dP _ _ _ => dP 0) (fun _ _ _ _ _ _ => 1)
        (fun _ _ => 0) (fun _ _ _ => 5)
        (fun i => if i = 0 then 1 else if i = 3 then 1 else 0)
        (fun i => if i = 0 then 3 else if i = 3 then 1 else 0)
        (fun _ => 1) (fun _ => 1)
        (fun d => if d = 0 then 1 else 0) 0 = 50 ∧
    mswComputeResidual 1 2 (fun _ _ dP _ _ _ => dP 0) (fun _ _ _ _ _ _ => 1)
        (fun i => if i = 0 then 1 else if i = 3 then 1 else 0)
        (fun i => if i = 0 then 3 else if i = 3 then 1 else 0)
        (fun _ => 1) (fun _ => 1) (fun _ => 1) (fun _ => 1)
        (fun d => if d = 0 then 1 else 0) 0
      ≠ mswComputeResidualSpecStar 1 2 (fun _ _ dP _ _ _ => dP 0) (fun _ _ _ _ _ _ => 1)
        (fun _ _ => 0) (fun _ _ _ => 5)
        (fun i => if i = 0 then 1 else if i = 3 then 1 else 0)
        (fun i => if i = 0 then 3 else if i = 3 then 1 else 0)
        (fun _ => 1) (fun _ => 1)
        (fun d => if d = 0 then 1 else 0) 0 := by
  have h4 : Real.sqrt 4 = 2 := by
    rw [show (4 : ℝ) = 2 ^ 2 by norm_num]
    exact Real.sqrt_sq (by norm_num)
  have h1 : mswComputeResidual 1 2 (fun _ _ dP _ _ _ => dP 0) (fun _ _ _ _ _ _ => 1)
      (fun i => if i = 0 then 1 else if i = 3 then 1 else 0)
      (fun i => if i = 0 then 3 else if i = 3 then 1 else 0)
      (fun _ => 1) (fun _ => 1) (fun _ => 1) (fun _ => 1)
      (fun d => if d = 0 then 1 else 0) 0 = 10 := by
    simp only [mswComputeResidual]
    norm_num [faceArea, unitNormal, projVel, mswDP, mswW, mswWeight, mswStar, mswLamPlus,
      mswLamMinus, pencil, VEL_INDEX, P_INDEX, A_INDEX, nVarOf, Finset.sum_range_succ,
      Real.sqrt_one, Real.sqrt_zero, Real.zero_rpow, h4]
  have h2 : mswComputeResidualSpecStar 1 2 (fun _ _ dP _ _ _ => dP 0) (fun _ _ _ _ _ _ => 1)
      (fun _ _ => 0) (fun _ _ _ => 5)
      (fun i => if i = 0 then 1 else if i = 3 then 1 else 0)
      (fun i => if i = 0 then 3 else if i = 3 then 1 else 0)
      (fun _ => 1) (fun _ => 1)
      (fun d => if d = 0 then 1 else 0) 0 = 50 := by
    simp only [mswComputeResidualSpecStar]
    norm_num [faceArea, unitNormal, projVel, mswDP, mswW, mswWeight, mswStar, mswLamPlus,
      mswLamMinus, pencil, VEL_INDEX, P_INDEX, A_INDEX, nVarOf, Finset.sum_range_succ,
      Real.sqrt_one, Real.sqrt_zero, Real.zero_rpow, h4]
  refine ⟨h1, h2, ?_⟩
  rw [h1, h2]
  norm_num

/-- A nonzero normal has positive face area. -/
theorem faceArea_pos (nD : ℕ) (N : ℕ → ℝ) (hN : ∃ d, d < nD ∧ N d ≠ 0) :
    0 < faceArea nD N := by
  obtain ⟨d, hd, hNd⟩ := hN
  simp only [faceArea]
  apply Real.sqrt_pos.mpr
  apply Finset.sum_pos' (fun e _ => mul_self_nonneg (N e))
  exact ⟨d, Finset.mem_range.mpr hd, mul_self_pos.mpr hNd⟩

/-- Projecting on the unit normal divides the projection on the normal by the
area. -/
theorem projVel_unitNormal (nSp nD : ℕ) (V N : ℕ → ℝ) :
    projVel nSp nD V (unitNormal nD N) = projVel nSp nD V N / faceArea nD N := by
  simp only [projVel, unitNormal, div_eq_mul_inv, Finset.sum_mul]
  exact Finset.sum_congr rfl fun d _ => by ring

/-- Scaling the unit normal's inviscid flux by the area recovers the flux on
the unnormalized normal. -/
theorem inviscidProjFlux_unitNormal (nSp nD : ℕ) (U V N : ℕ → ℝ)
    (hA : faceArea nD N ≠ 0) (i : ℕ) :
    inviscidProjFlux nSp nD U V (unitNormal nD N) i * faceArea nD N
      = inviscidProjFlux nSp nD U V N i := by
  simp only [inviscidProjFlux, projVel_unitNormal, unitNormal]
  split_ifs <;> field_simp

/-- A pencil whose coefficient vector is a sum splits into two pencils. -/
theorem pencil_add (nVar : ℕ) (P Pinv : ℕ → ℕ → ℝ) (c1 c2 : ℕ → ℝ) (i j : ℕ) :
    pencil nVar P Pinv (fun k => c1 k + c2 k) i j
      = pencil nVar P Pinv c1 i j + pencil nVar P Pinv c2 i j := by
  simp only [pencil, ← Finset.sum_add_distrib]
  exact Finset.sum_congr rfl fun k _ => by ring

/-- With `eps = 0` the two Steger–Warming half-eigenvalue vectors recombine to
the raw eigenvalues. -/
theorem mswLam_sum (nSp nD : ℕ) (v a : ℝ) :
    (fun k => mswLamPlus nSp nD v a 0 k + mswLamMinus nSp nD v a 0 k)
      = eigenRaw nSp nD v a := by
  funext k
  simp only [mswLamPlus, mswLamMinus, eigenRaw]
  split_ifs <;> ring

/-- C1: counterexample.  Two schemes fail single-state consistency.  First,
`CUpwAUSMPWplus_TNE2::ComputeResidual` zeroes its velocity and pressure inputs
(lines 1505–1510), so at an identical pair of states with density, pressure and
sound speed 1, velocity (1,0) and normal (1,0) its first species residual is 0
while the exact projected flux of the state is 1.  Second,
`CAvgGradCorrected_TNE2::ComputeResidual` replaces the along-edge component of
the mean gradient by the secant slope (lines 3105–3114), which is 0 for equal
states; with a unit temperature gradient along the edge and `ktr = 1` its
energy-row residual is 0 while the viscous projected flux computed from the
single state's own gradient is 1. -/
theorem C1_counterexample :
    (ausmPWplusComputeResidual 1 2 1 (fun _ => 1) (fun _ => 1) (fun _ => 1)
        (fun _ => 1) (fun _ => 1) (fun d => if d = 0 then 1 else 0) 0 = 0
      ∧ inviscidProjFlux 1 2 (fun _ => 1) (fun _ => 1)
          (fun d => if d = 0 then 1 else 0) 0 = 1)
    ∧ (avgGradCorrectedComputeResidual 1 2 (fun _ => 0) (fun d => if d = 0 then 1 else 0)
        (fun _ => 1) (fun _ => 1)
        (fun i d => if i = 1 ∧ d = 0 then 1 else 0) (fun i d => if i = 1 ∧ d = 0 then 1 else 0)
        (fun _ => 0) (fun _ => 0) (fun _ => 0) (fun _ => 0)
        0 0 1 1 0 0 (fun d => if d = 0 then 1 else 0) (fun _ _ _ => 0) 3 = 0
      ∧ getViscousProjFlux 1 2 (primTransform 1 2 (fun _ => 1))
          (gradTransform 1 2 (fun _ => 1) (fun i d => if i = 1 ∧ d = 0 then 1 else 0))
          (fun _ => 0) (fun d => if d = 0 then 1 else 0) (fun _ => 0) 0 1 0
          (fun _ _ _ => 0) 3 = 1) := by
  refine ⟨⟨?_, ?_⟩, ⟨?_, ?_⟩⟩
  · norm_num [ausmPWplusComputeResidual, Real.zero_rpow, Finset.sum_range_succ,
      Finset.sum_range_zero]
  · norm_num [inviscidProjFlux, projVel, VEL_INDEX, Finset.sum_range_succ,
      Finset.sum_range_zero]
  · norm_num [avgGradCorrectedComputeResidual, getViscousProjFlux, primTransform,
      gradTransform, RHOS_INDEX, T_INDEX, TVE_INDEX, VEL_INDEX, RHO_INDEX,
      Finset.sum_range_succ, Finset.sum_range_zero]
  · norm_num [getViscousProjFlux, primTransform, gradTransform, RHOS_INDEX,
      T_INDEX, TVE_INDEX, VEL_INDEX, RHO_INDEX,
      Finset.sum_range_succ, Finset.sum_range_zero]

/-- C1 (amended): single-state consistency holds for the Roe, MSW, AUSM,
AUSM+-up2 and centered-Lax convective schemes and for the plain
average-gradient viscous scheme: at identical left/right inputs with positive
density and sound speed and a nonzero normal, each residual equals the exact
projected flux of the single state and the dissipative correction is zero
(Roe's dissipation vanishes identically; MSW needs the eigenvector kernels to
reconstruct the flux Jacobian, stated as a hypothesis since `GetPMatrix` lives
outside these sources; AUSM+-up2 needs positive enthalpy and `Gamma > 1` so
its interface sound speed is positive).  The corrected average-gradient scheme
is consistent only when the mean gradient has no component along the
cell-to-cell edge, because the correction replaces that component by the
secant slope, which is zero for equal states; AUSMPW+ is excluded (its
implementation zeroes its velocity and pressure inputs). -/
theorem C1_amended_single_state_consistency (nSp nD : ℕ) (U V N : ℕ → ℝ)
    (hN : ∃ d, d < nD ∧ N d ≠ 0)
    (hrho : 0 < V (RHO_INDEX nSp nD)) (ha : 0 < V (A_INDEX nSp nD)) :
    (∀ (PM PMI : MatKernel) (calcEve : ℝ → ℕ → ℝ)
        (calcdPdU : (ℕ → ℝ) → (ℕ → ℝ) → ℕ → ℝ) (i : ℕ),
      roeComputeResidual nSp nD PM PMI calcEve calcdPdU U U V V N i
        = inviscidProjFlux nSp nD U V N i)
    ∧ (∀ (P Pinv : ℕ → ℕ → ℝ) (lam : ℕ → ℝ) (i : ℕ),
        roeDissipation nSp nD P Pinv lam U U N i = 0)
    ∧ (∀ (PM PMI : MatKernel) (dPdU : ℕ → ℝ),
        (∀ i, (∑ j ∈ range (nVarOf nSp nD),
            pencil (nVarOf nSp nD) (PM U V dPdU (unitNormal nD N))
              (PMI U V dPdU (unitNormal nD N))
              (eigenRaw nSp nD (projVel nSp nD V (unitNormal nD N)) (V (A_INDEX nSp nD)))
              i j * U j)
          = inviscidProjFlux nSp nD U V (unitNormal nD N) i) →
        ∀ i, mswComputeResidual nSp nD PM PMI U U V V dPdU dPdU N i
          = inviscidProjFlux nSp nD U V N i)
    ∧ (∀ i, ausmComputeResidual nSp nD U U V V N i = inviscidProjFlux nSp nD U V N i)
    ∧ (∀ Minf Gamma : ℝ, 1 < Gamma → 0 < V (H_INDEX nSp nD) →
        ∀ i, ausmPlusUp2ComputeResidual nSp nD Minf Gamma U U V V N i
          = inviscidProjFlux nSp nD U V N i)
    ∧ (∀ (kappa0 epsSmall sensor_i sensor_j Neigh_i Neigh_j : ℝ) (i : ℕ),
        centLaxResConv nSp nD kappa0 epsSmall sensor_i sensor_j Neigh_i Neigh_j
            U U V V N i
          = inviscidProjFlux nSp nD U V N i)
    ∧ (∀ (G : ℕ → ℕ → ℝ) (eve Ds : ℕ → ℝ) (mu ktr kve : ℝ)
        (calcHs : ℝ → ℝ → ℕ → ℝ) (i : ℕ),
        avgGradComputeResidual nSp nD V V G G eve eve Ds Ds mu mu ktr ktr kve kve N calcHs i
          = getViscousProjFlux nSp nD (primTransform nSp nD V) (gradTransform nSp nD V G)
              eve N Ds mu ktr kve calcHs i)
    ∧ (∀ (Ci Cj : ℕ → ℝ) (G : ℕ → ℕ → ℝ) (eve Ds : ℕ → ℝ) (mu ktr kve : ℝ)
        (calcHs : ℝ → ℝ → ℕ → ℝ),
        (∀ iVar, (∑ d ∈ range nD,
            gradTransform nSp nD V G iVar d * (Cj d - Ci d)) = 0) →
        ∀ i, avgGradCorrectedComputeResidual nSp nD Ci Cj V V G G
            eve eve Ds Ds mu mu ktr ktr kve kve N calcHs i
          = getViscousProjFlux nSp nD (primTransform nSp nD V) (gradTransform nSp nD V G)
              eve N Ds mu ktr kve calcHs i) := by
  refine ⟨?_, ?_, ?_, ?_, ?_, ?_, ?_, ?_⟩
  · intro PM PMI calcEve calcdPdU i
    simp only [roeComputeResidual, roeDissipation, sub_self, mul_zero, zero_mul,
      Finset.sum_const_zero, sub_zero]
    ring
  · intro P Pinv lam i
    simp [roeDissipation]
  · intro PM PMI dPdU hA i
    have hAne : faceArea nD N ≠ 0 := ne_of_gt (faceArea_pos nD N hN)
    have hU : mswStar (mswWeight nSp nD V V) U U = U := funext fun l => by
      simp only [mswStar]; ring
    have hV : mswStar (mswWeight nSp nD V V) V V = V := funext fun l => by
      simp only [mswStar]; ring
    have hPV : (1 - mswWeight nSp nD V V) * projVel nSp nD V (unitNormal nD N)
        + mswWeight nSp nD V V * projVel nSp nD V (unitNormal nD N)
        = projVel nSp nD V (unitNormal nD N) := by ring
    simp only [mswComputeResidual, hU, hV, hPV]
    rw [← Finset.sum_add_distrib]
    have hstep : ∀ j ∈ range (nVarOf nSp nD),
        pencil (nVarOf nSp nD) (PM U V dPdU (unitNormal nD N))
            (PMI U V dPdU (unitNormal nD N))
            (mswLamPlus nSp nD (projVel nSp nD V (unitNormal nD N)) (V (A_INDEX nSp nD)) 0)
            i j * U j * faceArea nD N
          + pencil (nVarOf nSp nD) (PM U V dPdU (unitNormal nD N))
            (PMI U V dPdU (unitNormal nD N))
            (mswLamMinus nSp nD (projVel nSp nD V (unitNormal nD N)) (V (A_INDEX nSp nD)) 0)
            i j * U j * faceArea nD N
          = pencil (nVarOf nSp nD) (PM U V dPdU (unitNormal nD N))
            (PMI U V dPdU (unitNormal nD N))
            (eigenRaw nSp nD (projVel nSp nD V (unitNormal nD N)) (V (A_INDEX nSp nD)))
            i j * U j * faceArea nD N := by
      intro j _
      rw [← add_mul, ← add_mul, ← pencil_add, mswLam_sum]
    rw [Finset.sum_congr rfl hstep, ← Finset.sum_mul, hA i]
    exact inviscidProjFlux_unitNormal nSp nD U V N hAne i
  · intro i
    have hAne : faceArea nD N ≠ 0 := ne_of_gt (faceArea_pos nD N hN)
    have hane : V (A_INDEX nSp nD) ≠ 0 := ne_of_gt ha
    have hrne : V (RHO_INDEX nSp nD) ≠ 0 := ne_of_gt hrho
    have hmF : ausmMF (V (A_INDEX nSp nD)) (V (A_INDEX nSp nD))
        (projVel nSp nD V (unitNormal nD N)) (projVel nSp nD V (unitNormal nD N))
        = projVel nSp nD V (unitNormal nD N) / V (A_INDEX nSp nD) := by
      simp only [ausmMF]
      exact mSplit_sum 0 _
    have hpF : ausmPF (V (P_INDEX nSp nD)) (V (P_INDEX nSp nD)) (V (A_INDEX nSp nD))
        (V (A_INDEX nSp nD)) (projVel nSp nD V (unitNormal nD N))
        (projVel nSp nD V (unitNormal nD N)) = V (P_INDEX nSp nD) := by
      simp only [ausmPF]
      rw [← mul_add, pSplit_sum, mul_one]
    have hred : ∀ m F A : ℝ, 0.5 * ((m + |m|) * F + (m - |m|) * F) * A = m * F * A := by
      intro m F A
      ring
    simp only [ausmComputeResidual, hmF, hpF]
    rw [hred, projVel_unitNormal]
    simp only [ausmFc, inviscidProjFlux, unitNormal]
    split_ifs <;> first | omega | (field_simp [hAne, hane, hrne]; try ring)
  · intro Minf Gamma hGam hH i
    have hAne : faceArea nD N ≠ 0 := ne_of_gt (faceArea_pos nD N hN)
    have hrne : V (RHO_INDEX nSp nD) ≠ 0 := ne_of_gt hrho
    have hC : 0 < Real.sqrt (2 * (Gamma - 1) / (Gamma + 1) * V (H_INDEX nSp nD)) := by
      apply Real.sqrt_pos.mpr
      exact mul_pos (div_pos (by linarith) (by linarith)) hH
    have haF : ∀ pv : ℝ,
        0 < up2aF Gamma (V (H_INDEX nSp nD)) (V (H_INDEX nSp nD)) pv pv := by
      intro pv
      simp only [up2aF]
      exact lt_min (div_pos (mul_pos hC hC) (lt_of_lt_of_le hC (le_max_left _ _)))
        (div_pos (mul_pos hC hC) (lt_of_lt_of_le hC (le_max_left _ _)))
    have haFne : up2aF Gamma (V (H_INDEX nSp nD)) (V (H_INDEX nSp nD))
        (projVel nSp nD V N / faceArea nD N) (projVel nSp nD V N / faceArea nD N) ≠ 0 :=
      ne_of_gt (haF _)
    have hMp : ∀ fa MFsq rhoF aF P : ℝ, up2Mp 0.25 1 fa MFsq rhoF aF P P = 0 := by
      intro fa MFsq rhoF aF P
      simp [up2Mp]
    have hpFi0 : ∀ sq al m rho aF : ℝ,
        up2pFi sq sq (pSplitPlus al m) (pSplitMinus al m) rho rho aF = 0 := by
      intro sq al m rho aF
      simp only [up2pFi, pSplit_sum, sub_self, mul_zero, zero_mul]
    have hpFq : ∀ P x y : ℝ, up2pF P P x y 0 = P := by
      intro P x y
      simp only [up2pF]
      ring
    have hred2 : ∀ m F A : ℝ,
        (0.5 * (m + |m|) * F + 0.5 * (m - |m|) * F) * A = m * F * A := by
      intro m F A
      ring
    simp only [ausmPlusUp2ComputeResidual, hMp, add_zero, mSplit_sum, hpFi0, hpFq]
    rw [hred2, projVel_unitNormal]
    simp only [ausmFc, inviscidProjFlux, unitNormal]
    split_ifs <;> first | omega | (field_simp [hAne, haFne, hrne]; try ring)
  · intro kappa0 epsSmall sensor_i sensor_j Neigh_i Neigh_j i
    have hU : (fun l => 0.5 * (U l + U l)) = U := funext fun l => by ring
    have hV : (fun l => 0.5 * (V l + V l)) = V := funext fun l => by ring
    simp only [centLaxResConv, centLaxDiffU, hU, hV]
    split_ifs <;> simp [sub_self]
  · intro G eve Ds mu ktr kve calcHs i
    have hP : (fun l => 0.5 * (primTransform nSp nD V l + primTransform nSp nD V l))
        = primTransform nSp nD V := funext fun l => by ring
    have hG : (fun l d => 0.5 * (gradTransform nSp nD V G l d + gradTransform nSp nD V G l d))
        = gradTransform nSp nD V G := funext fun l => funext fun d => by ring
    have hE : (fun s => 0.5 * (eve s + eve s)) = eve := funext fun s => by ring
    have hDs : (fun s => 0.5 * (Ds s + Ds s)) = Ds := funext fun s => by ring
    have hmu : (0.5 : ℝ) * (mu + mu) = mu := by ring
    have hktr : (0.5 : ℝ) * (ktr + ktr) = ktr := by ring
    have hkve : (0.5 : ℝ) * (kve + kve) = kve := by ring
    simp only [avgGradComputeResidual, hP, hG, hE, hDs, hmu, hktr, hkve]
  · intro Ci Cj G eve Ds mu ktr kve calcHs h0 i
    have hP : (fun l => 0.5 * (primTransform nSp nD V l + primTransform nSp nD V l))
        = primTransform nSp nD V := funext fun l => by ring
    have hG : (fun l d => 0.5 * (gradTransform nSp nD V G l d + gradTransform nSp nD V G l d))
        = gradTransform nSp nD V G := funext fun l => funext fun d => by ring
    have hE : (fun s => 0.5 * (eve s + eve s)) = eve := funext fun s => by ring
    have hDs : (fun s => 0.5 * (Ds s + Ds s)) = Ds := funext fun s => by ring
    have hmu : (0.5 : ℝ) * (mu + mu) = mu := by ring
    have hktr : (0.5 : ℝ) * (ktr + ktr) = ktr := by ring
    have hkve : (0.5 : ℝ) * (kve + kve) = kve := by ring
    have hGp : ∀ l d, 0.5 * (gradTransform nSp nD V G l d + gradTransform nSp nD V G l d)
        = gradTransform nSp nD V G l d := fun l d => by ring
    have hPp : ∀ l, 0.5 * (primTransform nSp nD V l + primTransform nSp nD V l)
        = primTransform nSp nD V l := fun l => by ring
    simp only [avgGradCorrectedComputeResidual, hP, hG, hE, hDs, hmu, hktr, hkve, hGp, hPp]
    have hCgrad : (fun iVar d => gradTransform nSp nD V G iVar d
        - ((∑ e ∈ range nD, gradTransform nSp nD V G iVar e * (Cj e - Ci e))
            - (primTransform nSp nD V iVar - primTransform nSp nD V iVar))
          * (Cj d - Ci d) / (∑ e ∈ range nD, (Cj e - Ci e) * (Cj e - Ci e)))
        = gradTransform nSp nD V G := by
      funext iVar d
      simp [h0 iVar]
    rw [hCgrad]

/-- Witness for C1 (amended) at `nSpecies = 1`, `nDim = 2`, the all-ones
state, normal `(1,0)`, `Gamma = 2`, delta eigenvector kernels for MSW and a
zero gradient for the viscous schemes. -/
theorem C1_amended_single_state_consistency_witness :
    roeComputeResidual 1 2 (fun _ _ _ _ _ _ => 2) (fun _ _ _ _ _ _ => 3)
        (fun _ _ => 0) (fun _ _ _ => 4) (fun _ => 1) (fun _ => 1) (fun _ => 1) (fun _ => 1)
        (fun d => if d = 0 then 1 else 0) 0
      = inviscidProjFlux 1 2 (fun _ => 1) (fun _ => 1) (fun d => if d = 0 then 1 else 0) 0
    ∧ roeDissipation 1 2 (fun _ _ => 2) (fun _ _ => 3) (fun _ => 4) (fun _ => 1) (fun _ => 1)
        (fun d => if d = 0 then 1 else 0) 0 = 0
    ∧ mswComputeResidual 1 2
        (fun _ _ _ _ i k => if k = 0 then (if i = 1 then 2 else if i < 5 then 1 else 0) else 0)
        (fun _ _ _ _ _ j => if j = 0 then 1 else 0)
        (fun _ => 1) (fun _ => 1) (fun _ => 1) (fun _ => 1) (fun _ => 6) (fun _ => 6)
        (fun d => if d = 0 then 1 else 0) 0
      = inviscidProjFlux 1 2 (fun _ => 1) (fun _ => 1) (fun d => if d = 0 then 1 else 0) 0
    ∧ ausmComputeResidual 1 2 (fun _ => 1) (fun _ => 1) (fun _ => 1) (fun _ => 1)
        (fun d => if d = 0 then 1 else 0) 0
      = inviscidProjFlux 1 2 (fun _ => 1) (fun _ => 1) (fun d => if d = 0 then 1 else 0) 0
    ∧ ausmPlusUp2ComputeResidual 1 2 1 2 (fun _ => 1) (fun _ => 1) (fun _ => 1) (fun _ => 1)
        (fun d => if d = 0 then 1 else 0) 0
      = inviscidProjFlux 1 2 (fun _ => 1) (fun _ => 1) (fun d => if d = 0 then 1 else 0) 0
    ∧ centLaxResConv 1 2 2 3 5 7 2 3 (fun _ => 1) (fun _ => 1) (fun _ => 1) (fun _ => 1)
        (fun d => if d = 0 then 1 else 0) 0
      = inviscidProjFlux 1 2 (fun _ => 1) (fun _ => 1) (fun d => if d = 0 then 1 else 0) 0
    ∧ avgGradComputeResidual 1 2 (fun _ => 1) (fun _ => 1) (fun _ _ => 0) (fun _ _ => 0)
        (fun _ => 0) (fun _ => 0) (fun _ => 0) (fun _ => 0) 0 0 0 0 0 0
        (fun d => if d = 0 then 1 else 0) (fun _ _ _ => 0) 0
      = getViscousProjFlux 1 2 (primTransform 1 2 (fun _ => 1))
          (gradTransform 1 2 (fun _ => 1) (fun _ _ => 0)) (fun _ => 0)
          (fun d => if d = 0 then 1 else 0) (fun _ => 0) 0 0 0 (fun _ _ _ => 0) 0
    ∧ avgGradCorrectedComputeResidual 1 2 (fun _ => 0) (fun d => if d = 0 then 1 else 0)
        (fun _ => 1) (fun _ => 1) (fun _ _ => 0) (fun _ _ => 0)
        (fun _ => 0) (fun _ => 0) (fun _ => 0) (fun _ => 0) 0 0 0 0 0 0
        (fun d => if d = 0 then 1 else 0) (fun _ _ _ => 0) 0
      = getViscousProjFlux 1 2 (primTransform 1 2 (fun _ => 1))
          (gradTransform 1 2 (fun _ => 1) (fun _ _ => 0)) (fun _ => 0)
          (fun d => if d = 0 then 1 else 0) (fun _ => 0) 0 0 0 (fun _ _ _ => 0) 0 := by
  have h := C1_amended_single_state_consistency 1 2 (fun _ => 1) (fun _ => 1)
    (fun d => if d = 0 then 1 else 0) ⟨0, by norm_num⟩ (by norm_num) (by norm_num)
  refine ⟨h.1 (fun _ _ _ _ _ _ => 2) (fun _ _ _ _ _ _ => 3) (fun _ _ => 0) (fun _ _ _ => 4) 0,
    h.2.1 (fun _ _ => 2) (fun _ _ => 3) (fun _ => 4) 0,
    h.2.2.1
      (fun _ _ _ _ i k => if k = 0 then (if i = 1 then 2 else if i < 5 then 1 else 0) else 0)
      (fun _ _ _ _ _ j => if j = 0 then 1 else 0) (fun _ => 6) ?hA 0,
    h.2.2.2.1 0,
    h.2.2.2.2.1 1 2 (by norm_num) (by norm_num) 0,
    h.2.2.2.2.2.1 2 3 5 7 2 3 0,
    h.2.2.2.2.2.2.1 (fun _ _ => 0) (fun _ => 0) (fun _ => 0) 0 0 0 (fun _ _ _ => 0) 0,
    h.2.2.2.2.2.2.2 (fun _ => 0) (fun d => if d = 0 then 1 else 0) (fun _ _ => 0)
      (fun _ => 0) (fun _ => 0) 0 0 0 (fun _ _ _ => 0) ?h0 0⟩
  case hA =>
    intro i
    norm_num [pencil, eigenRaw, inviscidProjFlux, projVel, unitNormal, faceArea, nVarOf,
      VEL_INDEX, RHO_INDEX, P_INDEX, H_INDEX, A_INDEX, Real.sqrt_one,
      Finset.sum_range_succ, Finset.sum_range_zero]
    split_ifs <;> first | omega | norm_num
  case h0 =>
    intro iVar
    simp [gradTransform]

/-- C7 (amended): the MSW flux equals
`P(star_i) Λ⁺ P⁻¹(star_i) U_i Area + P(star_j) Λ⁻ P⁻¹(star_j) U_j Area`,
where each side's eigenvector matrices are built from that side's weighted
star conserved and primitive state but with the pressure-derivative vector of
the original *node* (`dPdU_i`, `dPdU_j`), not the star value; and whenever the
thermodynamic collaborator's `CalcdPdU` happens to reproduce the node vectors
at the star states, the spec's star-evaluated formula coincides with the
code's flux. -/
theorem C7_amended_msw_node_derivatives (nSp nD : ℕ) (PM PMI : MatKernel)
    (U_i U_j V_i V_j dPdU_i dPdU_j N : ℕ → ℝ) (i : ℕ) :
    (mswComputeResidual nSp nD PM PMI U_i U_j V_i V_j dPdU_i dPdU_j N i
      = (∑ j ∈ range (nVarOf nSp nD),
          pencil (nVarOf nSp nD)
            (PM (mswStar (mswWeight nSp nD V_i V_j) U_i U_j)
                (mswStar (mswWeight nSp nD V_i V_j) V_i V_j) dPdU_i (unitNormal nD N))
            (PMI (mswStar (mswWeight nSp nD V_i V_j) U_i U_j)
                (mswStar (mswWeight nSp nD V_i V_j) V_i V_j) dPdU_i (unitNormal nD N))
            (mswLamPlus nSp nD
              ((1 - mswWeight nSp nD V_i V_j) * projVel nSp nD V_i (unitNormal nD N)
                + mswWeight nSp nD V_i V_j * projVel nSp nD V_j (unitNormal nD N))
              (mswStar (mswWeight nSp nD V_i V_j) V_i V_j (A_INDEX nSp nD)) 0)
            i j * U_i j * faceArea nD N)
        + (∑ j ∈ range (nVarOf nSp nD),
          pencil (nVarOf nSp nD)
            (PM (mswStar (mswWeight nSp nD V_i V_j) U_j U_i)
                (mswStar (mswWeight nSp nD V_i V_j) V_j V_i) dPdU_j (unitNormal nD N))
            (PMI (mswStar (mswWeight nSp nD V_i V_j) U_j U_i)
                (mswStar (mswWeight nSp nD V_i V_j) V_j V_i) dPdU_j (unitNormal nD N))
            (mswLamMinus nSp nD
              ((1 - mswWeight nSp nD V_i V_j) * projVel nSp nD V_j (unitNormal nD N)
                + mswWeight nSp nD V_i V_j * projVel nSp nD V_i (unitNormal nD N))
              (mswStar (mswWeight nSp nD V_i V_j) V_j V_i (A_INDEX nSp nD)) 0)
            i j * U_j j * faceArea nD N)) ∧
    (∀ (calcEve : ℝ → ℕ → ℝ) (calcdPdU : (ℕ → ℝ) → (ℕ → ℝ) → ℕ → ℝ),
      calcdPdU (mswStar (mswWeight nSp nD V_i V_j) V_i V_j)
          (fun s => calcEve (mswStar (mswWeight nSp nD V_i V_j) V_i V_j (TVE_INDEX nSp)) s)
        = dPdU_i →
      calcdPdU (mswStar (mswWeight nSp nD V_i V_j) V_j V_i)
          (fun s => calcEve (mswStar (mswWeight nSp nD V_i V_j) V_j V_i (TVE_INDEX nSp)) s)
        = dPdU_j →
      mswComputeResidualSpecStar nSp nD PM PMI calcEve calcdPdU U_i U_j V_i V_j N i
        = mswComputeResidual nSp nD PM PMI U_i U_j V_i V_j dPdU_i dPdU_j N i) := by
  constructor
  · rfl
  · intro calcEve calcdPdU hI hJ
    simp only [mswComputeResidualSpecStar, mswComputeResidual]
    rw [hI, hJ]

/-- Witness for C7 (amended) at constant states (conserved 2/3, primitive 5/7,
node derivatives 4) with a `CalcdPdU` that returns the node value. -/
theorem C7_amended_msw_node_derivatives_witness :
    mswComputeResidualSpecStar 1 2 (fun _ _ _ _ _ _ => 1) (fun _ _ _ _ _ _ => 1)
        (fun _ _ => 0) (fun _ _ _ => 4) (fun _ => 2) (fun _ => 3) (fun _ => 5) (fun _ => 7)
        (fun _ => 1) 0
      = mswComputeResidual 1 2 (fun _ _ _ _ _ _ => 1) (fun _ _ _ _ _ _ => 1)
        (fun _ => 2) (fun _ => 3) (fun _ => 5) (fun _ => 7) (fun _ => 4) (fun _ => 4)
        (fun _ => 1) 0 :=
  (C7_amended_msw_node_derivatives 1 2 (fun _ _ _ _ _ _ => 1) (fun _ _ _ _ _ _ => 1)
    (fun _ => 2) (fun _ => 3) (fun _ => 5) (fun _ => 7) (fun _ => 4) (fun _ => 4)
    (fun _ => 1) 0).2 (fun _ _ => 0) (fun _ _ _ => 4) rfl rfl

end TNE2
